import Mathlib

/-!
# Toyen: the per-kind action compiler

A shallow embedding of `build.go`: every module kind's `GenerateBuildActions`
is a function from the module and its module context to the module after the
call together with the parameters of the `ctx.Build` calls, in call order. A
call that ends in a run-time panic (an index out of range) has no action list.

The bootstrap singleton takes the package-level variables of `main.go` and the
result of `exec.LookPath` as arguments. The triple methods of `config.go`
return `none` where an index expression would be out of range.

Go strings are embedded as `String`, slices as lists and the `Args` map as the
list of its bindings. The `path/filepath` functions the compiler calls
(`Join`, `Base`, `Dir`, all built on `Clean`) are embedded for the Unix
separator `/`; `strings.Title` is embedded with the tables of package
`unicode` as a parameter.
-/

namespace Toyen

/-! ## Go library functions used by the compiler -/

/-- The Unix `os.IsPathSeparator`. -/
def isPathSeparator (c : Char) : Bool := c == '/'

/-- The components of `s` between occurrences of `sep`, as `strings.Split`
with a one-character separator returns them: `n` separators give `n + 1`
components, empty ones included. -/
def splitOnChar (sep : Char) : List Char → List (List Char)
  | [] => [[]]
  | c :: cs =>
    if c = sep then [] :: splitOnChar sep cs
    else
      match splitOnChar sep cs with
      | [] => [[c]]
      | h :: t => (c :: h) :: t

/-- One turn of the loop of `filepath.Clean`, on a whole path element.
The output buffer is kept as the stack of the elements written so far, last
one first. An empty element and `.` write nothing; `..` removes the last
element when there is one that is not itself `..` (`out.w > dotdot`), is
dropped at the root, and is appended otherwise; any other element is
appended. -/
def cleanStep (rooted : Bool) (out : List (List Char)) (elem : List Char) :
    List (List Char) :=
  if elem = [] ∨ elem = ['.'] then out
  else if elem = ['.', '.'] then
    match out with
    | [] => if rooted then [] else [elem]
    | top :: rest => if top = ['.', '.'] then elem :: out else rest
  else elem :: out

/-- The elements of a stack joined by the separator, first element first. -/
def joinElems : List (List Char) → List Char
  | [] => []
  | [e] => e
  | e :: es => e ++ '/' :: joinElems es

/-- The function `filepath.Clean` on characters. -/
def cleanChars (path : List Char) : List Char :=
  match path with
  | [] => ['.']
  | c :: _ =>
    let rooted := isPathSeparator c
    let out := (splitOnChar '/' path).foldl (cleanStep rooted) []
    if rooted then '/' :: joinElems out.reverse
    else if out = [] then ['.']
    else joinElems out.reverse

/-- The function `filepath.Clean`: the shortest path name equivalent to `path` by
purely lexical processing. -/
def filepath.Clean (path : String) : String := String.mk (cleanChars path.data)

/-- The function `filepath.Base`: the last element of `path`, trailing separators
removed first; `.` for the empty path and `/` for a path of separators. -/
def filepath.Base (path : String) : String :=
  if path = "" then "."
  else
    let stripped := path.data.reverse.dropWhile isPathSeparator
    let last := stripped.takeWhile (fun c => !isPathSeparator c)
    if last = [] then "/" else String.mk last.reverse

/-- The function `filepath.Dir`: all but the last element of `path`, cleaned. -/
def filepath.Dir (path : String) : String :=
  filepath.Clean (String.mk (path.data.reverse.dropWhile (fun c => !isPathSeparator c)).reverse)

/-- The function `strings.Join`. -/
def strings.Join (elems : List String) (sep : String) : String :=
  String.intercalate sep elems

/-- The function `filepath.Join`: the elements from the first non-empty one on, joined
by the separator and cleaned; the empty string when every element is empty. -/
def filepath.Join : List String → String
  | [] => ""
  | e :: rest => if e ≠ "" then filepath.Clean (strings.Join (e :: rest) "/") else filepath.Join rest

/-- The function `strings.Split` for a separator of one character, as `config.go`
calls it: all components, empty ones included; never an empty slice. -/
def strings.Split (s : String) (sep : Char) : List String :=
  (splitOnChar sep s.data).map String.mk

/-- Whether `c` is not the separator. -/
def notSep (sep c : Char) : Bool := c != sep

/-- The first `n` components of `s` for `n > 0`, the last of them being the
unsplit rest; no component for `n = 0`. -/
def splitNChar (sep : Char) : Nat → List Char → List (List Char)
  | 0, _ => []
  | 1, s => [s]
  | n + 2, s =>
    match s.dropWhile (notSep sep) with
    | [] => [s]
    | _ :: rest => s.takeWhile (notSep sep) :: splitNChar sep (n + 1) rest

/-- The function `strings.SplitN` for a separator of one character: at most `n`
components when `n > 0`, none when `n = 0`, all of them when `n < 0`. -/
def strings.SplitN (s : String) (sep : Char) (n : Int) : List String :=
  if n < 0 then strings.Split s sep
  else (splitNChar sep n.toNat s.data).map String.mk

/-- The tables of Go's package `unicode` that `strings.Title` consults. -/
structure unicode.Tables where
  ToTitle : Char → Char
  IsLetter : Char → Bool
  IsDigit : Char → Bool
  IsSpace : Char → Bool

/-- The tables restricted to ASCII: `ToTitle` maps `a`..`z` to `A`..`Z` and
leaves every other character alone. On ASCII text `strings.Title` with these
tables is Go's. -/
def unicode.ascii : unicode.Tables :=
  { ToTitle := fun r => if 'a' ≤ r ∧ r ≤ 'z' then Char.ofNat (r.toNat - 32) else r,
    IsLetter := fun _ => false,
    IsDigit := fun _ => false,
    IsSpace := fun _ => false }

/-- The function `isSeparator` of package `strings`: whether `r` ends a word. -/
def strings.isSeparator (u : unicode.Tables) (r : Char) : Bool :=
  if r.toNat ≤ 0x7F then
    if '0' ≤ r ∧ r ≤ '9' then false
    else if 'a' ≤ r ∧ r ≤ 'z' then false
    else if 'A' ≤ r ∧ r ≤ 'Z' then false
    else if r = '_' then false
    else true
  else if u.IsLetter r || u.IsDigit r then false
  else u.IsSpace r

/-- The mapping of `strings.Title` over the characters after `prev`. -/
def titleChars (u : unicode.Tables) : Char → List Char → List Char
  | _, [] => []
  | prev, r :: rs =>
    (if strings.isSeparator u prev then u.ToTitle r else r) :: titleChars u r rs

/-- The function `strings.Title`: every character that begins a word is mapped to
its title case. -/
def strings.Title (u : unicode.Tables) (s : String) : String :=
  String.mk (titleChars u ' ' s.data)

/-- What `joinElems` writes before a last element. -/
def joinPrefix (es : List (List Char)) : List Char :=
  if es = [] then [] else joinElems es ++ ['/']

/-- A path element that `filepath.Clean` keeps as it is: not empty, without
separator, and neither `.` nor `..`. -/
def properElem (b : List Char) : Prop :=
  b ≠ [] ∧ '/' ∉ b ∧ b ≠ ['.'] ∧ b ≠ ['.', '.']

/-! ## blueprint: rules, build parameters, module context -/

/-- The fields of `blueprint.RuleParams` that the rules of `build.go` set. -/
structure RuleParams where
  Command : String := ""
  Description : String := ""
  Generator : Bool := false
  Depfile : String := ""
deriving DecidableEq, Repr

/-- A rule as `pctx.StaticRule(name, params, argNames...)` declares it. -/
structure Rule where
  name : String
  params : RuleParams
  argNames : List String := []
deriving DecidableEq, Repr

/-- The arguments of one `ctx.Build` call, `blueprint.BuildParams`. `Args` is
the Go map, kept as the list of its bindings in the order they are written. -/
structure BuildParams where
  Rule : Rule
  Outputs : List String := []
  Inputs : List String := []
  Implicits : List String := []
  OrderOnly : List String := []
  Args : List (String × String) := []
  Optional : Bool := false
deriving DecidableEq, Repr

def cmake : Rule :=
  { name := "cmake",
    params :=
      { Command := "cd $buildDir && $envVars $cmakeCmd -GNinja $cmakeOptions $cmakeDir",
        Generator := true,
        Description := "cmake $cmakeDir" },
    argNames := ["envVars", "cmakeOptions", "cmakeDir", "buildDir"] }

def gn : Rule :=
  { name := "gn",
    params :=
      { Command :=
          "$envVars $gnCmd gen $buildDir --root=$gnDir --script-executable=/usr/bin/env --args='$gnArgs'",
        Generator := true,
        Description := "gn $gnDir" },
    argNames := ["envVars", "gnDir", "gnArgs", "buildDir"] }

def _make : Rule :=
  { name := "make",
    params :=
      { Command := "$envVars $makeCmd -j $Jobs -C $makeDir -f $makeFile $targets",
        Description := "make $makeDir" },
    argNames := ["envVars", "targets", "makeFile", "makeDir"] }

def ninja : Rule :=
  { name := "ninja",
    params :=
      { Command := "$envVars $ninjaCmd -j $Jobs -C $ninjaDir -f $ninjaFile $targets",
        Description := "ninja $ninjaDir" },
    argNames := ["envVars", "targets", "ninjaFile", "ninjaDir"] }

def script : Rule :=
  { name := "script",
    params :=
      { Command := "cd $workingDir && $envVars $scriptCmd $scriptArgs",
        Description := "sh $in" },
    argNames := ["envVars", "scriptCmd", "scriptArgs", "workingDir"] }

def cp : Rule :=
  { name := "cp", params := { Command := "cp -vR $in $out", Description := "cp $out" } }

def install : Rule :=
  { name := "install",
    params := { Command := "install -c $in $out", Description := "install $out" } }

def mkdir : Rule :=
  { name := "mkdir", params := { Command := "mkdir -p $out", Description := "mkdir $out" } }

def rm : Rule :=
  { name := "rm",
    params := { Command := "rm -rf $files", Description := "rm $out" },
    argNames := ["files"] }

def stamp : Rule :=
  { name := "stamp", params := { Command := "touch $out", Description := "stamp $out" } }

/-- The built-in rule `blueprint.Phony`: no command. -/
def Phony : Rule := { name := "phony", params := {} }

/-- The struct `buildConfig` of `config.go`. -/
structure buildConfig where
  srcDir : String
  outDir : String
  hostTriple : String
  targetTriple : String
deriving DecidableEq, Repr

/-- The method `HostArch`. The result of an index expression is `none` when the
index is out of range (a run-time panic). -/
def buildConfig.HostArch (c : buildConfig) : Option String :=
  let s := strings.Split c.hostTriple '-'
  s[0]?

/-- The method `HostOS`. For an empty `s` the index `len(s) - 1` is out of range,
as is the index `0` the truncated subtraction gives here. -/
def buildConfig.HostOS (u : unicode.Tables) (c : buildConfig) : Option String :=
  let s := strings.Split c.hostTriple '-'
  s[s.length - 1]?.map (strings.Title u)

def buildConfig.TargetArch (c : buildConfig) : Option String :=
  let s := strings.Split c.targetTriple '-'
  s[0]?

def buildConfig.TargetOS (u : unicode.Tables) (c : buildConfig) : Option String :=
  let s := strings.SplitN c.targetTriple '-' 3
  s[s.length - 1]?.map (strings.Title u)

structure builderModule where
  targetName : String
deriving DecidableEq, Repr

def builderModule.TargetName (bm : builderModule) : String := bm.targetName

structure Alias extends builderModule where
  config : buildConfig
deriving DecidableEq, Repr

structure CleanProperties where
  Dirs : List String
deriving DecidableEq, Repr

structure Clean extends builderModule where
  properties : CleanProperties
  config : buildConfig
deriving DecidableEq, Repr

structure CMakeProperties where
  Env : List String
  Options : List String
  Src : String
  BuildDir : String
deriving DecidableEq, Repr

structure CMake extends builderModule where
  properties : CMakeProperties
  config : buildConfig
deriving DecidableEq, Repr

structure CopyProperties where
  Sources : List String
  Destination : String
deriving DecidableEq, Repr

structure Copy extends builderModule where
  properties : CopyProperties
  config : buildConfig
deriving DecidableEq, Repr

structure GnProperties where
  Env : List String
  Args : List String
  SrcDir : String
  BuildDir : String
deriving DecidableEq, Repr

structure Gn extends builderModule where
  properties : GnProperties
  config : buildConfig
deriving DecidableEq, Repr

structure InstallProperties where
  Sources : List String
  Destination : String
deriving DecidableEq, Repr

structure Install extends builderModule where
  properties : InstallProperties
  config : buildConfig
deriving DecidableEq, Repr

structure MakeProperties where
  Env : List String
  Makefile : String
  Targets : List String
  Outputs : List String
deriving DecidableEq, Repr

structure Make extends builderModule where
  properties : MakeProperties
  config : buildConfig
deriving DecidableEq, Repr

structure NinjaProperties where
  Env : List String
  NinjaFile : String
  Targets : List String
  Outputs : List String
deriving DecidableEq, Repr

structure Ninja extends builderModule where
  properties : NinjaProperties
  config : buildConfig
deriving DecidableEq, Repr

structure ScriptProperties where
  Script : String
  Outputs : List String
  Inputs : List String
  Args : List String
  WorkingDir : String
  Env : List String
  GenFiles : List String
deriving DecidableEq, Repr

structure Script extends builderModule where
  properties : ScriptProperties
  config : buildConfig
deriving DecidableEq, Repr

/-- The nine module types `main.go` registers; each embeds `builderModule`. -/
inductive BuilderModule where
  | alias (m : Alias)
  | clean (m : Clean)
  | cmake (m : CMake)
  | copy (m : Copy)
  | gn (m : Gn)
  | install (m : Install)
  | make (m : Make)
  | ninja (m : Ninja)
  | script (m : Script)
deriving DecidableEq, Repr

/-- The method `TargetName` of the interface `BuilderModule`. -/
def BuilderModule.TargetName : BuilderModule → String
  | .alias m => m.TargetName
  | .clean m => m.TargetName
  | .cmake m => m.TargetName
  | .copy m => m.TargetName
  | .gn m => m.TargetName
  | .install m => m.TargetName
  | .make m => m.TargetName
  | .ninja m => m.TargetName
  | .script m => m.TargetName

/-- A value of the interface `blueprint.Module`: a module of one of the
registered types, or one that does not implement `BuilderModule`. -/
inductive Module where
  | builder (m : BuilderModule)
  | other
deriving DecidableEq, Repr

/-- What `build.go` reads of a `blueprint.ModuleContext`: the module's name and
its direct dependencies in declaration order. -/
structure ModuleContext where
  moduleName : String
  directDeps : List Module
deriving DecidableEq, Repr

def ModuleContext.ModuleName (ctx : ModuleContext) : String := ctx.moduleName

/-- The method `VisitDirectDepsIf`: `visit` is called, in order, on each direct
dependency that satisfies `pred`; the visitor's captured variable is threaded
through as `acc`. -/
def ModuleContext.VisitDirectDepsIf {σ : Type} (ctx : ModuleContext) (pred : Module → Bool)
    (visit : σ → Module → σ) (acc : σ) : σ :=
  ctx.directDeps.foldl (fun acc m => if pred m then visit acc m else acc) acc

def isBuilderModule : Module → Bool
  | .builder _ => true
  | .other => false

def getDirectDependencies (ctx : ModuleContext) : List String :=
  ctx.VisitDirectDepsIf isBuilderModule
    (fun depTargets m =>
      match m with
      | .builder target => depTargets ++ [target.TargetName]
      | .other => depTargets)
    []

/-- The outcome of one `GenerateBuildActions` call: the receiver after the
call and the parameters of its `ctx.Build` calls in order, or `none` when the
call ends in a run-time panic. -/
structure Generated (M : Type) where
  module : M
  actions : Option (List BuildParams)

/-- The slice `make([]string, n)`: `n` empty strings. -/
def makeStrings (n : Nat) : List String := List.replicate n ""

/-- The loop `for i, x := range xs { dst[i] = f x }`. Every caller passes a
`dst` made with the length of `xs`, so each index is in range. -/
def assignEach (f : String → String) (xs : List String) (dst : List String) : List String :=
  xs.enum.foldl (fun dst p => dst.set p.1 (f p.2)) dst

def Alias.GenerateBuildActions (a : Alias) (ctx : ModuleContext) : Generated Alias :=
  let a := { a with targetName := ctx.ModuleName }
  ⟨a, some
    [{ Rule := Phony,
       Outputs := [ctx.ModuleName],
       Inputs := getDirectDependencies ctx }]⟩

def Clean.GenerateBuildActions (c : Clean) (ctx : ModuleContext) : Generated Clean :=
  let c := { c with targetName := ctx.ModuleName }
  if c.properties.Dirs.length ≠ 0 then
    ⟨c, some
      [{ Rule := rm,
         Outputs := [ctx.ModuleName],
         Args := [("files", strings.Join c.properties.Dirs " ")],
         Implicits := getDirectDependencies ctx }]⟩
  else
    ⟨c, some
      [{ Rule := Phony,
         Outputs := [ctx.ModuleName],
         Implicits := getDirectDependencies ctx }]⟩

def CMake.GenerateBuildActions (c : CMake) (ctx : ModuleContext) : Generated CMake :=
  let c := { c with targetName := ctx.ModuleName }
  let options := makeStrings c.properties.Options.length
  let options := assignEach (fun o => "-D" ++ o) c.properties.Options options
  let mkdirAction : BuildParams :=
    { Rule := mkdir,
      Outputs := [c.properties.BuildDir],
      Optional := true }
  let cmakeArgs : List (String × String) :=
    [("cmakeOptions", strings.Join options " "),
     ("cmakeDir", c.properties.Src),
     ("envVars", strings.Join c.properties.Env " "),
     ("buildDir", c.properties.BuildDir)]
  let ninjaFile := filepath.Join [c.properties.BuildDir, "build.ninja"]
  ⟨c, some
    [mkdirAction,
     { Rule := cmake,
       Outputs := [ninjaFile],
       Implicits := getDirectDependencies ctx,
       OrderOnly := [c.properties.BuildDir],
       Args := cmakeArgs }]⟩

/-- The three groups of `ctx.Build` calls of `Copy.GenerateBuildActions`, once
`destinationDir` and `destinationFiles` are set: the directory, one `cp` per
source reading `destinationFiles[i]`, and the phony rule. -/
def Copy.buildCalls (c : Copy) (ctx : ModuleContext) (destinationDir : String)
    (destinationFiles : List String) : List BuildParams :=
  [{ Rule := mkdir,
     Outputs := [destinationDir],
     Optional := true }]
  ++ c.properties.Sources.enum.map (fun p =>
      { Rule := cp,
        Outputs := [destinationFiles.getD p.1 ""],
        Inputs := [p.2],
        Implicits := getDirectDependencies ctx,
        OrderOnly := [destinationDir],
        Optional := true })
  ++ [{ Rule := Phony,
        Outputs := [ctx.ModuleName],
        Inputs := destinationFiles }]

def Copy.GenerateBuildActions (c : Copy) (ctx : ModuleContext) : Generated Copy :=
  let c := { c with targetName := ctx.ModuleName }
  let destinationFiles := makeStrings c.properties.Sources.length
  if c.properties.Sources.length > 1 then
    let destinationDir := c.properties.Destination
    let destinationFiles :=
      assignEach (fun src => filepath.Join [destinationDir, filepath.Base src])
        c.properties.Sources destinationFiles
    ⟨c, some (c.buildCalls ctx destinationDir destinationFiles)⟩
  else
    let destinationDir := filepath.Dir c.properties.Destination
    if 0 < destinationFiles.length then
      let destinationFiles := destinationFiles.set 0 c.properties.Destination
      ⟨c, some (c.buildCalls ctx destinationDir destinationFiles)⟩
    else
      -- `destinationFiles[0]` on an empty slice: index out of range
      ⟨c, none⟩

def Gn.GenerateBuildActions (g : Gn) (ctx : ModuleContext) : Generated Gn :=
  let g := { g with targetName := ctx.ModuleName }
  let gnArgs : List (String × String) :=
    [("envVars", strings.Join g.properties.Env " "),
     ("gnDir", g.properties.SrcDir),
     ("gnArgs", strings.Join g.properties.Args " "),
     ("buildDir", g.properties.BuildDir)]
  let ninjaFile := filepath.Join [g.properties.BuildDir, "build.ninja"]
  ⟨g, some
    [{ Rule := gn,
       Outputs := [ninjaFile],
       Implicits := getDirectDependencies ctx,
       Args := gnArgs }]⟩

def Install.GenerateBuildActions (i : Install) (ctx : ModuleContext) : Generated Install :=
  let i := { i with targetName := ctx.ModuleName }
  let destinationFiles := makeStrings i.properties.Sources.length
  let destinationFiles :=
    assignEach (fun src => filepath.Join [i.properties.Destination, filepath.Base src])
      i.properties.Sources destinationFiles
  ⟨i, some
    [{ Rule := mkdir,
       Outputs := [i.properties.Destination],
       Optional := true },
     { Rule := install,
       Outputs := destinationFiles,
       Inputs := i.properties.Sources,
       Implicits := getDirectDependencies ctx,
       OrderOnly := [i.properties.Destination] }]⟩

def Make.GenerateBuildActions (m : Make) (ctx : ModuleContext) : Generated Make :=
  let m := { m with targetName := ctx.ModuleName }
  let makeArgs : List (String × String) :=
    [("envVars", strings.Join m.properties.Env " "),
     ("makeFile", filepath.Base m.properties.Makefile),
     ("makeDir", filepath.Dir m.properties.Makefile)]
  let makeArgs :=
    if m.properties.Targets.length > 0 then
      makeArgs ++ [("targets", strings.Join m.properties.Targets " ")]
    else makeArgs
  let outputs :=
    if m.properties.Outputs.length > 0 then m.properties.Outputs
    else [ctx.ModuleName]
  ⟨m, some
    [{ Rule := _make,
       Outputs := outputs,
       Implicits := getDirectDependencies ctx ++ [m.properties.Makefile],
       Args := makeArgs,
       Optional := true }]⟩

def Ninja.GenerateBuildActions (n : Ninja) (ctx : ModuleContext) : Generated Ninja :=
  let n := { n with targetName := ctx.ModuleName }
  let ninjaArgs : List (String × String) :=
    [("envVars", strings.Join n.properties.Env " "),
     ("ninjaFile", filepath.Base n.properties.NinjaFile),
     ("ninjaDir", filepath.Dir n.properties.NinjaFile)]
  let ninjaArgs :=
    if n.properties.Targets.length ≠ 0 then
      ninjaArgs ++ [("targets", strings.Join n.properties.Targets " ")]
    else ninjaArgs
  let outputs :=
    if n.properties.Outputs.length > 0 then n.properties.Outputs
    else [ctx.ModuleName]
  ⟨n, some
    [{ Rule := ninja,
       Outputs := outputs,
       Implicits := getDirectDependencies ctx ++ [n.properties.NinjaFile],
       Args := ninjaArgs,
       Optional := true }]⟩

/-- The map `ruleArgs` of `Script.GenerateBuildActions`. -/
def Script.ruleArgs (s : Script) : List (String × String) :=
  [("envVars", strings.Join s.properties.Env " "),
   ("scriptCmd", s.properties.Script),
   ("scriptArgs", strings.Join s.properties.Args " "),
   ("workingDir", s.properties.WorkingDir)]

/-- The slice `implicits` of `Script.GenerateBuildActions`. -/
def Script.implicits (s : Script) (ctx : ModuleContext) : List String :=
  s.properties.Inputs ++ (getDirectDependencies ctx ++ [s.properties.Script])

def Script.GenerateBuildActions (s : Script) (ctx : ModuleContext) : Generated Script :=
  let s := { s with targetName := ctx.ModuleName }
  let mkdirAction : BuildParams :=
    { Rule := mkdir,
      Outputs := [s.properties.WorkingDir],
      Optional := true }
  let ruleArgs := s.ruleArgs
  let implicits := s.implicits ctx
  let outputs := s.properties.Outputs ++ s.properties.GenFiles
  if outputs.length ≠ 0 then
    ⟨s, some
      [mkdirAction,
       { Rule := script,
         Outputs := outputs,
         Inputs := [s.properties.Script],
         Args := ruleArgs,
         Implicits := implicits,
         OrderOnly := [s.properties.WorkingDir],
         Optional := true },
       { Rule := Phony,
         Outputs := [ctx.ModuleName],
         Inputs := outputs }]⟩
  else
    ⟨s, some
      [mkdirAction,
       { Rule := script,
         Outputs := [ctx.ModuleName],
         Inputs := [s.properties.Script],
         Args := ruleArgs,
         Implicits := implicits,
         OrderOnly := [s.properties.WorkingDir] }]⟩

/-- The call blueprint makes on each module: the `GenerateBuildActions` of its type. -/
def BuilderModule.GenerateBuildActions (m : BuilderModule) (ctx : ModuleContext) :
    Generated BuilderModule :=
  match m with
  | .alias a => let r := a.GenerateBuildActions ctx; ⟨.alias r.module, r.actions⟩
  | .clean c => let r := c.GenerateBuildActions ctx; ⟨.clean r.module, r.actions⟩
  | .cmake c => let r := c.GenerateBuildActions ctx; ⟨.cmake r.module, r.actions⟩
  | .copy c => let r := c.GenerateBuildActions ctx; ⟨.copy r.module, r.actions⟩
  | .gn g => let r := g.GenerateBuildActions ctx; ⟨.gn r.module, r.actions⟩
  | .install i => let r := i.GenerateBuildActions ctx; ⟨.install r.module, r.actions⟩
  | .make m => let r := m.GenerateBuildActions ctx; ⟨.make r.module, r.actions⟩
  | .ninja n => let r := n.GenerateBuildActions ctx; ⟨.ninja r.module, r.actions⟩
  | .script s => let r := s.GenerateBuildActions ctx; ⟨.script r.module, r.actions⟩

/-- The package-level variables of `main.go` that `Bootstrap` reads. -/
structure Globals where
  rootBlueprintsFile : String
  depFile : String
  outFile : String
deriving DecidableEq, Repr

/-- The two results of `exec.LookPath(os.Args[0])`: the path found and the
error, `none` for `nil`. -/
structure LookPathResult where
  path : String
  err : Option String
deriving DecidableEq, Repr

structure Bootstrap where
  config : buildConfig
deriving DecidableEq, Repr

/-- The singleton's `GenerateBuildActions`: the parameters of its `ctx.Build`
calls in order; `none` would be a call that does not return. The error of
`exec.LookPath` is assigned to `_`. -/
def Bootstrap.GenerateBuildActions (_m : Bootstrap) (g : Globals) (look : LookPathResult) :
    Option (List BuildParams) :=
  let executable := look.path
  let builder : Rule :=
    { name := "builder",
      params :=
        { Command := executable ++ " $rootBlueprintFile",
          Description := "Regenerating Ninja files",
          Generator := true,
          Depfile := g.depFile },
      argNames := ["rootBlueprintFile"] }
  let args : List (String × String) := [("rootBlueprintFile", g.rootBlueprintsFile)]
  some
    [{ Rule := builder,
       Outputs := [g.outFile],
       Args := args }]

/-! ## Example modules -/

def exampleConfig : buildConfig :=
  { srcDir := "/src", outDir := "/out", hostTriple := "x86_64-linux",
    targetTriple := "aarch64-fuchsia" }

/-- A module context: the module is named `m`; it depends on an alias module
whose target name is `dep` and on a module that is no builder module. -/
def exampleCtx : ModuleContext :=
  { moduleName := "m",
    directDeps := [.builder (.alias { targetName := "dep", config := exampleConfig }), .other] }

def copyTwoSources : Copy :=
  { targetName := "",
    properties := { Sources := ["a", "b"], Destination := "dst/" },
    config := exampleConfig }

def copyOneSource : Copy :=
  { targetName := "",
    properties := { Sources := ["a"], Destination := "dst/out" },
    config := exampleConfig }

/-- A script module without outputs whose working directory is `work`. -/
def scriptNoOutputs : Script :=
  { targetName := "",
    properties :=
      { Script := "run.sh", Outputs := [], Inputs := ["in.txt"], Args := ["-v"],
        WorkingDir := "work", Env := ["A=1"], GenFiles := [] },
    config := exampleConfig }

/-- A script module without outputs whose working directory has the name of
the module in `exampleCtx`. -/
def scriptInOwnDir : Script :=
  { targetName := "",
    properties :=
      { Script := "run.sh", Outputs := [], Inputs := [], Args := [],
        WorkingDir := "m", Env := [], GenFiles := [] },
    config := exampleConfig }

/-- A script module with the output `x` and the generated file `y`. -/
def scriptWithOutputs : Script :=
  { targetName := "",
    properties :=
      { Script := "run.sh", Outputs := ["x"], Inputs := ["in.txt"], Args := ["-v"],
        WorkingDir := "work", Env := ["A=1"], GenFiles := ["y"] },
    config := exampleConfig }

def makeNoOutputs : Make :=
  { targetName := "",
    properties :=
      { Env := [], Makefile := "third_party/Makefile", Targets := ["all"], Outputs := [] },
    config := exampleConfig }

def ninjaWithOutputs : Ninja :=
  { targetName := "",
    properties :=
      { Env := [], NinjaFile := "out/build.ninja", Targets := [],
        Outputs := ["bin/tool", "lib/libtool.a"] },
    config := exampleConfig }

def cmakeExample : CMake :=
  { targetName := "",
    properties :=
      { Env := [], Options := ["CMAKE_BUILD_TYPE=Release"], Src := "src", BuildDir := "out" },
    config := exampleConfig }

def gnExample : Gn :=
  { targetName := "",
    properties := { Env := [], Args := ["is_debug=false"], SrcDir := "src", BuildDir := "out" },
    config := exampleConfig }

def installExample : Install :=
  { targetName := "",
    properties := { Sources := ["bin/tool"], Destination := "dst" },
    config := exampleConfig }

/-- An install module that lists no source. -/
def installNoSources : Install :=
  { targetName := "",
    properties := { Sources := [], Destination := "dst" },
    config := exampleConfig }

/-- A copy module with two different sources of the same base name. -/
def copySameBase : Copy :=
  { targetName := "",
    properties := { Sources := ["a/x", "b/x"], Destination := "dst" },
    config := exampleConfig }

/-- The variables as `main` sets them for the output directory `/out`. -/
def exampleGlobals : Globals :=
  { rootBlueprintsFile := "/src/Blueprints",
    depFile := "/out/build.ninja.d",
    outFile := "/out/build.ninja" }

/-- A lookup that failed: no path and an error. -/
def lookPathFailed : LookPathResult :=
  { path := "", err := some "executable file not found in $PATH" }

/-- A config whose host and target triple are both `x86_64-unknown-linux-gnu`. -/
def configFourParts : buildConfig :=
  { srcDir := "/src", outDir := "/out", hostTriple := "x86_64-unknown-linux-gnu",
    targetTriple := "x86_64-unknown-linux-gnu" }

/-- Three dependencies, all builder modules, with the target names `a`, `b`, `a`. -/
def ctxThreeDeps : ModuleContext :=
  { moduleName := "m",
    directDeps :=
      [.builder (.alias { targetName := "a", config := exampleConfig }),
       .builder (.alias { targetName := "b", config := exampleConfig }),
       .builder (.alias { targetName := "a", config := exampleConfig })] }

/-- A clean module that removes two directories. -/
def cleanTwoDirs : Clean :=
  { targetName := "",
    properties := { Dirs := ["out/a", "out/b"] },
    config := exampleConfig }

/-- The function `NewConfig` of `config.go`. -/
def NewConfig (srcDir outDir hostTriple targetTriple : String) : buildConfig :=
  { srcDir := srcDir, outDir := outDir, hostTriple := hostTriple, targetTriple := targetTriple }

/-- The text of `t` before its first `-`, all of `t` when it has none. -/
def firstComponent (t : String) : String :=
  String.mk (t.data.takeWhile (notSep '-'))

/-- The target name a direct dependency contributes: that of a builder module,
none for any other module. -/
def dependencyTarget : Module → Option String
  | .builder b => some b.TargetName
  | .other => none

/-- The output paths of the per-file copy actions among `acts`. -/
def cpOutputs (acts : List BuildParams) : List String :=
  (acts.filter (fun a => a.Rule = cp)).flatMap (fun a => a.Outputs)

/-- The output paths of all of `acts`. -/
def allOutputs (acts : List BuildParams) : List String :=
  acts.flatMap (fun a => a.Outputs)

/-- The modules for which `GenerateBuildActions` emits an action whose output is
the module's name on every path: alias, clean, copy and script modules, and
make and ninja modules that declare no Outputs. -/
def emitsOwnName : BuilderModule → Bool
  | .alias _ => true
  | .clean _ => true
  | .copy _ => true
  | .script _ => true
  | .make m => m.properties.Outputs.isEmpty
  | .ninja n => n.properties.Outputs.isEmpty
  | .cmake _ => false
  | .gn _ => false
  | .install _ => false

/-- Every module but an install module without sources. -/
def listsSources : BuilderModule → Bool
  | .install i => !i.properties.Sources.isEmpty
  | _ => true

/-- A copy module that lists no source. -/
def copyNoSources : Copy :=
  { targetName := "",
    properties := { Sources := [], Destination := "dst/out" },
    config := exampleConfig }

/-- A make module and a ninja module with the same property values. -/
def makeWithTargets : Make :=
  { targetName := "",
    properties :=
      { Env := ["CC=clang"], Makefile := "third_party/build.mk", Targets := ["all", "install"],
        Outputs := ["bin/tool"] },
    config := exampleConfig }

def ninjaWithTargets : Ninja :=
  { targetName := "",
    properties :=
      { Env := ["CC=clang"], NinjaFile := "third_party/build.mk", Targets := ["all", "install"],
        Outputs := ["bin/tool"] },
    config := exampleConfig }

/-- The name a binding of the make rule has in the ninja rule: `makeFile` is
`ninjaFile`, `makeDir` is `ninjaDir`, every other name is kept. -/
def renameMakeKey (key : String) : String :=
  if key = "makeFile" then "ninjaFile"
  else if key = "makeDir" then "ninjaDir"
  else key

/-- The bindings of a make action under the names of the ninja rule. -/
def renameMakeArgs (args : List (String × String)) : List (String × String) :=
  args.map (fun p => (renameMakeKey p.1, p.2))

/-- Whether `args` binds `key`. -/
def bindsKey (args : List (String × String)) (key : String) : Bool :=
  args.any (fun p => p.1 == key)

/-- A copy module whose one source is copied to the destination `.`. -/
def copyToDot : Copy :=
  { targetName := "",
    properties := { Sources := ["a"], Destination := "." },
    config := exampleConfig }

/-- The length the elements take when each is written with one separator. -/
def elemsWidth (es : List (List Char)) : Nat :=
  (es.map (fun e => e.length + 1)).sum

/-- The same for the components of a path, an empty component counting nothing. -/
def compsWidth (cs : List (List Char)) : Nat :=
  (cs.map (fun c => if c = [] then 0 else c.length + 1)).sum

/-! ## Loops over slices -/

theorem assignEach_from (f : String → String) (xs : List String) :
    ∀ pre : List String,
      (xs.enumFrom pre.length).foldl (fun dst p => dst.set p.1 (f p.2))
          (pre ++ makeStrings xs.length)
        = pre ++ xs.map f := by
  induction xs with
  | nil => intro pre; simp [makeStrings]
  | cons x xs ih =>
    intro pre
    have h := ih (pre ++ [f x])
    simp only [List.length_append, List.length_singleton, List.append_assoc,
      List.singleton_append] at h
    simp only [List.enumFrom_cons, List.foldl_cons, List.length_cons, makeStrings,
      List.replicate_succ, List.map_cons]
    rw [List.set_append_right _ _ (Nat.le_refl _)]
    simpa [makeStrings] using h

/-- The loop that fills a fresh slice of the length of `xs` maps `f` over `xs`. -/
theorem assignEach_makeStrings (f : String → String) (xs : List String) :
    assignEach f xs (makeStrings xs.length) = xs.map f := by
  have h := assignEach_from f xs []
  simpa [assignEach, List.enum] using h

theorem map_enumFrom_getD {β : Type} (f : String → String) (g : String → String → β)
    (xs : List String) :
    ∀ pre : List String,
      (xs.enumFrom pre.length).map (fun p => g ((pre ++ xs.map f).getD p.1 "") p.2)
        = xs.map (fun s => g (f s) s) := by
  induction xs with
  | nil => intro pre; simp
  | cons x xs ih =>
    intro pre
    have h := ih (pre ++ [f x])
    simp only [List.length_append, List.length_singleton, List.append_assoc,
      List.singleton_append] at h
    simp only [List.enumFrom_cons, List.map_cons, h]
    congr 2
    rw [List.getD_eq_getElem?_getD, List.getElem?_append_right (Nat.le_refl _)]
    simp

/-- Reading `dst[i]` in a second loop over `xs`, where `dst` holds `f` of each
element, pairs every element with its own image. -/
theorem map_enum_getD {β : Type} (f : String → String) (g : String → String → β)
    (xs : List String) :
    xs.enum.map (fun p => g ((xs.map f).getD p.1 "") p.2) = xs.map (fun s => g (f s) s) := by
  have h := map_enumFrom_getD f g xs []
  simpa [List.enum] using h

/-! ## Paths -/

theorem splitOnChar_ne_nil (sep : Char) (xs : List Char) : splitOnChar sep xs ≠ [] := by
  cases xs with
  | nil => simp [splitOnChar]
  | cons c cs =>
    simp only [splitOnChar]
    split
    · simp
    · split <;> simp

/-- Splitting distributes over a separator in the middle. -/
theorem splitOnChar_append_sep (sep : Char) (xs ys : List Char) :
    splitOnChar sep (xs ++ sep :: ys) = splitOnChar sep xs ++ splitOnChar sep ys := by
  induction xs with
  | nil => simp [splitOnChar]
  | cons c cs ih =>
    simp only [List.cons_append, splitOnChar]
    split
    · simp [ih]
    · rw [show cs.append (sep :: ys) = cs ++ sep :: ys from rfl, ih]
      cases hx : splitOnChar sep cs with
      | nil => exact absurd hx (splitOnChar_ne_nil sep cs)
      | cons h t => simp

/-- A string without separator is its only component. -/
theorem splitOnChar_of_not_mem (sep : Char) (xs : List Char) (h : sep ∉ xs) :
    splitOnChar sep xs = [xs] := by
  induction xs with
  | nil => simp [splitOnChar]
  | cons c cs ih =>
    simp only [List.mem_cons, not_or] at h
    have hc : c ≠ sep := fun e => h.1 e.symm
    simp [splitOnChar, hc, ih h.2]

theorem joinElems_concat (es : List (List Char)) (b : List Char) :
    joinElems (es ++ [b]) = joinPrefix es ++ b := by
  induction es with
  | nil => simp [joinElems, joinPrefix]
  | cons e es ih =>
    cases es with
    | nil => simp [joinElems, joinPrefix]
    | cons e2 es =>
      simp only [joinPrefix, List.cons_append, joinElems] at ih ⊢
      simp [ih]

theorem cleanStep_proper (rooted : Bool) (out : List (List Char)) (b : List Char)
    (hb : properElem b) : cleanStep rooted out b = b :: out := by
  obtain ⟨h1, -, h3, h4⟩ := hb
  simp [cleanStep, h1, h3, h4]

/-- Cleaning a proper element gives the element. -/
theorem cleanChars_proper (b : List Char) (hb : properElem b) : cleanChars b = b := by
  have hb2 := hb
  obtain ⟨h1, h2, -, -⟩ := hb2
  cases b with
  | nil => exact absurd rfl h1
  | cons c cs =>
    have hc : isPathSeparator c = false := by
      simp only [List.mem_cons, not_or] at h2
      simpa [isPathSeparator] using fun e => h2.1 e.symm
    simp only [cleanChars, hc, splitOnChar_of_not_mem '/' (c :: cs) h2, List.foldl_cons,
      List.foldl_nil, cleanStep_proper false [] (c :: cs) hb]
    simp [joinElems]

/-- Cleaning a non-empty directory followed by a proper element: the result is
a prefix that depends on the directory only, then the element. -/
theorem cleanChars_dir_elem (d : List Char) (hd : d ≠ []) :
    ∃ pre : List Char, ∀ b : List Char, properElem b →
      cleanChars (d ++ '/' :: b) = pre ++ b := by
  cases d with
  | nil => exact absurd rfl hd
  | cons c cs =>
    refine ⟨(if isPathSeparator c then ['/'] else []) ++
      joinPrefix ((splitOnChar '/' (c :: cs)).foldl (cleanStep (isPathSeparator c)) []).reverse,
      ?_⟩
    intro b hb
    simp only [List.cons_append, cleanChars]
    rw [← List.cons_append, splitOnChar_append_sep, splitOnChar_of_not_mem '/' b hb.2.1,
      List.foldl_append, List.foldl_cons, List.foldl_nil, cleanStep_proper _ _ b hb,
      List.reverse_cons, joinElems_concat]
    cases hr : isPathSeparator c <;> simp

theorem String.mk_data_injective {a b : List Char} (h : String.mk a = String.mk b) : a = b := by
  injection h

/-- Joining a directory and a proper element is injective in the element. -/
theorem Join_injective_on_proper (D b b2 : String) (hb : properElem b.data)
    (hb2 : properElem b2.data) (h : filepath.Join [D, b] = filepath.Join [D, b2]) :
    b = b2 := by
  have hne : b ≠ "" := fun e => hb.1 (by rw [e])
  have hne2 : b2 ≠ "" := fun e => hb2.1 (by rw [e])
  by_cases hD : D = ""
  · subst hD
    simp only [filepath.Join, ne_eq, not_true_eq_false, if_false, hne, hne2, not_false_eq_true,
      if_true, filepath.Clean, strings.Join, String.intercalate, String.intercalate.go] at h
    have h2 := String.mk_data_injective h
    rw [cleanChars_proper _ hb, cleanChars_proper _ hb2] at h2
    exact String.ext h2
  · have hd : D.data ≠ [] := fun e => hD (String.ext e)
    obtain ⟨pre, hpre⟩ := cleanChars_dir_elem D.data hd
    simp only [filepath.Join, ne_eq, hD, not_false_eq_true, if_true, filepath.Clean,
      strings.Join, String.intercalate, String.intercalate.go, String.data_append] at h
    have h2 := String.mk_data_injective h
    have e1 : D.data ++ "/".data ++ b.data = D.data ++ '/' :: b.data := by simp
    have e2 : D.data ++ "/".data ++ b2.data = D.data ++ '/' :: b2.data := by simp
    rw [e1, e2, hpre _ hb, hpre _ hb2] at h2
    exact String.ext (List.append_cancel_left h2)

/-- The result of `filepath.Base` is never empty, and it holds a separator only
when it is the root `/`. -/
theorem Base_elem (path : String) :
    filepath.Base path = "/" ∨
      ((filepath.Base path).data ≠ [] ∧ '/' ∉ (filepath.Base path).data) := by
  unfold filepath.Base
  split
  · right; decide
  · simp only
    split
    · left; rfl
    · rename_i hl
      right
      refine ⟨by simpa using hl, ?_⟩
      intro hmem
      have hm := List.mem_reverse.mp hmem
      have := List.mem_takeWhile_imp hm
      simp [isPathSeparator] at this

/-- A base name other than `.`, `..` and `/` is a proper element. -/
theorem Base_proper (path : String) (h1 : filepath.Base path ≠ ".")
    (h2 : filepath.Base path ≠ "..") (h3 : filepath.Base path ≠ "/") :
    properElem (filepath.Base path).data := by
  rcases Base_elem path with h | ⟨hne, hsep⟩
  · exact absurd h h3
  · refine ⟨hne, hsep, ?_, ?_⟩
    · intro e; exact h1 (String.ext e)
    · intro e; exact h2 (String.ext e)

/-! ## The parent directory -/

theorem elemsWidth_cons (e : List Char) (es : List (List Char)) :
    elemsWidth (e :: es) = e.length + 1 + elemsWidth es := by
  simp [elemsWidth]

theorem elemsWidth_reverse (es : List (List Char)) :
    elemsWidth es.reverse = elemsWidth es := by
  induction es with
  | nil => rfl
  | cons e es ih =>
    simp only [List.reverse_cons, elemsWidth, List.map_append, List.sum_append, List.map_cons,
      List.map_nil, List.sum_cons, List.sum_nil] at ih ⊢
    omega

theorem compsWidth_le_elemsWidth (cs : List (List Char)) : compsWidth cs ≤ elemsWidth cs := by
  induction cs with
  | nil => simp [compsWidth, elemsWidth]
  | cons c cs ih =>
    simp only [compsWidth, elemsWidth, List.map_cons, List.sum_cons] at ih ⊢
    split <;> omega

/-- The joined elements are one character shorter than their width. -/
theorem length_joinElems (es : List (List Char)) (h : es ≠ []) :
    (joinElems es).length + 1 = elemsWidth es := by
  induction es with
  | nil => exact absurd rfl h
  | cons e es ih =>
    cases es with
    | nil => simp [joinElems, elemsWidth]
    | cons e2 es =>
      have := ih (by simp)
      simp only [joinElems, List.length_append, List.length_cons, elemsWidth_cons] at this ⊢
      omega

/-- The components of a text are as wide as the text and one separator. -/
theorem elemsWidth_splitOnChar (sep : Char) (s : List Char) :
    elemsWidth (splitOnChar sep s) = s.length + 1 := by
  induction s with
  | nil => simp [splitOnChar, elemsWidth]
  | cons c cs ih =>
    by_cases h : c = sep
    · simp only [splitOnChar, h, if_true, elemsWidth_cons, ih, List.length_nil,
        List.length_cons]
      omega
    · cases hx : splitOnChar sep cs with
      | nil => exact absurd hx (splitOnChar_ne_nil sep cs)
      | cons x xs =>
        rw [hx] at ih
        simp only [splitOnChar, h, if_false, hx, elemsWidth_cons, List.length_cons] at ih ⊢
        omega

/-- One turn of the loop of `Clean` writes no more than the element it reads. -/
theorem cleanStep_width (rooted : Bool) (out : List (List Char)) (e : List Char) :
    elemsWidth (cleanStep rooted out e)
      ≤ elemsWidth out + (if e = [] then 0 else e.length + 1) := by
  unfold cleanStep
  split
  · omega
  · rename_i h1
    have hne : e ≠ [] := fun h => h1 (Or.inl h)
    simp only [hne, if_false]
    split
    · rename_i h2
      cases out with
      | nil =>
        cases rooted <;> simp [elemsWidth, h2]
      | cons top rest =>
        simp only
        split
        · simp only [elemsWidth_cons]; omega
        · simp only [elemsWidth_cons]; omega
    · simp only [elemsWidth_cons]; omega

theorem foldl_cleanStep_width (rooted : Bool) (cs : List (List Char)) :
    ∀ out : List (List Char),
      elemsWidth (cs.foldl (cleanStep rooted) out) ≤ elemsWidth out + compsWidth cs := by
  induction cs with
  | nil => intro out; simp [compsWidth]
  | cons c cs ih =>
    intro out
    have h1 := ih (cleanStep rooted out c)
    have h2 := cleanStep_width rooted out c
    simp only [List.foldl_cons, compsWidth, List.map_cons, List.sum_cons] at h1 ⊢
    omega

/-- Cleaning a path that ends in a separator after other text shortens it. -/
theorem cleanChars_length_lt (a : List Char) (ha : a ≠ []) :
    (cleanChars (a ++ ['/'])).length < a.length + 1 := by
  cases a with
  | nil => exact absurd rfl ha
  | cons c cs =>
    have hsplit : splitOnChar '/' (c :: cs ++ ['/']) = splitOnChar '/' (c :: cs) ++ [[]] := by
      rw [splitOnChar_append_sep]
      rfl
    simp only [List.cons_append, cleanChars]
    rw [← List.cons_append, hsplit, List.foldl_append]
    simp only [List.foldl_cons, List.foldl_nil]
    have hstep : ∀ r (o : List (List Char)), cleanStep r o [] = o := by
      intro r o; simp [cleanStep]
    rw [hstep]
    by_cases hr : isPathSeparator c = true
    · have hc : c = '/' := by simpa [isPathSeparator] using hr
      subst hc
      have hw := foldl_cleanStep_width true (splitOnChar '/' ('/' :: cs)) []
      have hcw : compsWidth (splitOnChar '/' ('/' :: cs)) ≤ cs.length + 1 := by
        have h1 := compsWidth_le_elemsWidth (splitOnChar '/' cs)
        have h2 := elemsWidth_splitOnChar '/' cs
        simp only [splitOnChar, if_true, compsWidth, List.map_cons, List.sum_cons] at h1 ⊢
        omega
      simp only [hr, if_true, List.length_cons]
      cases ho : List.foldl (cleanStep true) [] (splitOnChar '/' ('/' :: cs)) with
      | nil => simp [joinElems]
      | cons x xs =>
        rw [ho] at hw
        have hj := length_joinElems (x :: xs).reverse (by simp)
        rw [elemsWidth_reverse] at hj
        simp only [elemsWidth, List.map_nil, List.sum_nil] at hw
        simp only [elemsWidth] at hj
        omega
    · have hr2 : isPathSeparator c = false := by simpa using hr
      have hw := foldl_cleanStep_width false (splitOnChar '/' (c :: cs)) []
      have hcw : compsWidth (splitOnChar '/' (c :: cs)) ≤ cs.length + 2 := by
        have h1 := compsWidth_le_elemsWidth (splitOnChar '/' (c :: cs))
        have h2 := elemsWidth_splitOnChar '/' (c :: cs)
        simp only [List.length_cons] at h2
        omega
      simp only [hr2, Bool.false_eq_true, if_false, List.length_cons]
      cases ho : List.foldl (cleanStep false) [] (splitOnChar '/' (c :: cs)) with
      | nil => simp
      | cons x xs =>
        rw [ho] at hw
        have hj := length_joinElems (x :: xs).reverse (by simp)
        rw [elemsWidth_reverse] at hj
        simp only [elemsWidth, List.map_nil, List.sum_nil] at hw
        simp only [elemsWidth] at hj
        simp only [reduceCtorEq, if_false]
        omega

/-- The parent directory `Dir(D)` is `D` itself only for `.` and `/`. -/
theorem Dir_eq_self (D : String) (h : filepath.Dir D = D) : D = "." ∨ D = "/" := by
  unfold filepath.Dir filepath.Clean at h
  have hd : cleanChars
      (D.data.reverse.dropWhile (fun c => !isPathSeparator c)).reverse = D.data := by
    have := congrArg String.data h
    simpa using this
  cases hdw : D.data.reverse.dropWhile (fun c => !isPathSeparator c) with
  | nil =>
    rw [hdw] at hd
    left
    exact String.ext hd.symm
  | cons x rest =>
    have hx : x = '/' := by
      have hne : D.data.reverse.dropWhile (fun c => !isPathSeparator c) ≠ [] := by
        rw [hdw]; simp
      have := List.head_dropWhile_not (fun c => !isPathSeparator c) D.data.reverse hne
      simp only [hdw, List.head_cons] at this
      simpa [isPathSeparator] using this
    subst hx
    have hlen : (rest.length + 1) ≤ D.data.length := by
      have := (List.dropWhile_sublist (fun c => !isPathSeparator c)
        (l := D.data.reverse)).length_le
      rw [hdw] at this
      simpa using this
    rw [hdw, List.reverse_cons] at hd
    by_cases hrest : rest = []
    · subst hrest
      right
      exact String.ext hd.symm
    · have hlt := cleanChars_length_lt rest.reverse (by simpa using hrest)
      rw [hd] at hlt
      simp only [List.length_reverse] at hlt
      omega

/-! ## Copy -/

/-- The actions of a copy module with two or more sources. -/
theorem Copy.actions_many_sources (c : Copy) (ctx : ModuleContext)
    (h : 2 ≤ c.properties.Sources.length) :
    (c.GenerateBuildActions ctx).actions = some
      ([{ Rule := mkdir, Outputs := [c.properties.Destination], Optional := true }]
        ++ c.properties.Sources.map (fun s =>
            { Rule := cp,
              Outputs := [filepath.Join [c.properties.Destination, filepath.Base s]],
              Inputs := [s],
              Implicits := getDirectDependencies ctx,
              OrderOnly := [c.properties.Destination],
              Optional := true })
        ++ [{ Rule := Phony,
              Outputs := [ctx.ModuleName],
              Inputs := c.properties.Sources.map
                (fun s => filepath.Join [c.properties.Destination, filepath.Base s]) }]) := by
  have hgt : c.properties.Sources.length > 1 := h
  simp only [Copy.GenerateBuildActions, hgt, if_true, Copy.buildCalls,
    assignEach_makeStrings]
  rw [map_enum_getD (fun src => filepath.Join [c.properties.Destination, filepath.Base src])
    (fun out src =>
      ({ Rule := cp, Outputs := [out], Inputs := [src],
         Implicits := getDirectDependencies ctx,
         OrderOnly := [c.properties.Destination], Optional := true } : BuildParams))]

/-- C1. A copy module with two or more sources compiles to `n + 2` actions: the
mkdir action for the destination `D`; one optional cp action per source `s`,
in source order, with output `Join(D, Base(s))`, input `s`, the direct
dependency targets as implicits and `D` as order-only dependency; and the
phony action named after the module, not optional, whose inputs are the
per-file outputs in source order. -/
theorem copy_many_sources_actions (c : Copy) (ctx : ModuleContext)
    (h : 2 ≤ c.properties.Sources.length) :
    ∃ acts : List BuildParams,
      (c.GenerateBuildActions ctx).actions = some acts ∧
      acts.length = c.properties.Sources.length + 2 ∧
      acts =
        [{ Rule := mkdir, Outputs := [c.properties.Destination], Optional := true }]
        ++ c.properties.Sources.map (fun s =>
            { Rule := cp,
              Outputs := [filepath.Join [c.properties.Destination, filepath.Base s]],
              Inputs := [s],
              Implicits := getDirectDependencies ctx,
              OrderOnly := [c.properties.Destination],
              Optional := true })
        ++ [{ Rule := Phony,
              Outputs := [ctx.ModuleName],
              Inputs := c.properties.Sources.map
                (fun s => filepath.Join [c.properties.Destination, filepath.Base s]),
              Optional := false }] :=
  ⟨_, Copy.actions_many_sources c ctx h, by simp, rfl⟩

/-- The copy module with sources `a`, `b` and destination `dst/` has the
outputs `dst/`, `dst/a`, `dst/b` and `m`, in this order. -/
theorem copy_many_sources_actions_witness :
    (copyTwoSources.GenerateBuildActions exampleCtx).actions.map
        (fun acts => acts.map (fun a => (a.Rule.name, a.Outputs, a.Inputs)))
      = some [("mkdir", ["dst/"], []), ("cp", ["dst/a"], ["a"]), ("cp", ["dst/b"], ["b"]),
          ("phony", ["m"], ["dst/a", "dst/b"])] := by
  obtain ⟨acts, h1, _, h3⟩ :=
    copy_many_sources_actions copyTwoSources exampleCtx (by decide)
  rw [h1, h3]
  decide

/-- C2, as stated, fails: the copy module `copyToDot` has one source and the
destination `.`, whose parent directory `Dir(.)` is `.` again, so the mkdir
action's output is the destination itself, which is the cp action's output
too. -/
theorem copy_to_dot_mkdir_outputs_destination :
    copyToDot.properties.Sources = ["a"] ∧
    filepath.Dir copyToDot.properties.Destination = copyToDot.properties.Destination ∧
    (copyToDot.GenerateBuildActions exampleCtx).actions.map
        (fun acts => acts.map (fun a => (a.Rule.name, a.Outputs)))
      = some [("mkdir", ["."]), ("cp", ["."]), ("phony", ["m"])] := by
  decide

/-- C2, amended. A copy module with exactly one source `s` treats its
destination `D` as a file: the mkdir action creates the parent directory
`Dir(D)`, the one cp action copies `s` to `D` after `Dir(D)` exists, and the
phony action named after the module has the input `D`. The parent `Dir(D)`
is `D` itself exactly for the destinations `.` and `/`; for every other
destination the mkdir action's output is not `D`. -/
theorem copy_one_source_actions (c : Copy) (ctx : ModuleContext) (s : String)
    (h : c.properties.Sources = [s]) :
    (c.GenerateBuildActions ctx).actions = some
      [{ Rule := mkdir, Outputs := [filepath.Dir c.properties.Destination], Optional := true },
       { Rule := cp,
         Outputs := [c.properties.Destination],
         Inputs := [s],
         Implicits := getDirectDependencies ctx,
         OrderOnly := [filepath.Dir c.properties.Destination],
         Optional := true },
       { Rule := Phony,
         Outputs := [ctx.ModuleName],
         Inputs := [c.properties.Destination] }] ∧
    (filepath.Dir c.properties.Destination = c.properties.Destination ↔
      (c.properties.Destination = "." ∨ c.properties.Destination = "/")) := by
  refine ⟨?_, ?_, ?_⟩
  · simp [Copy.GenerateBuildActions, Copy.buildCalls, h, makeStrings, List.enum]
  · exact Dir_eq_self c.properties.Destination
  · intro hd
    rcases hd with hd | hd <;> rw [hd] <;> decide

/-- The copy module with the one source `a` and destination `dst/out` creates
`dst`, which is not the destination, and copies `a` to `dst/out`. -/
theorem copy_one_source_actions_witness :
    (copyOneSource.GenerateBuildActions exampleCtx).actions.map
        (fun acts => acts.map (fun a => (a.Rule.name, a.Outputs, a.Inputs, a.OrderOnly)))
      = some [("mkdir", ["dst"], [], []), ("cp", ["dst/out"], ["a"], ["dst"]),
          ("phony", ["m"], ["dst/out"], [])] ∧
    filepath.Dir copyOneSource.properties.Destination ≠ copyOneSource.properties.Destination := by
  have h := copy_one_source_actions copyOneSource exampleCtx "a" rfl
  refine ⟨?_, ?_⟩
  · rw [h.1]
    decide
  · intro hd
    have := h.2.mp hd
    revert this
    decide

/-! ## Script -/

/-- The two actions of a script module that declares no output. -/
theorem Script.actions_without_outputs (s : Script) (ctx : ModuleContext)
    (h : s.properties.Outputs ++ s.properties.GenFiles = []) :
    (s.GenerateBuildActions ctx).actions = some
      [{ Rule := mkdir, Outputs := [s.properties.WorkingDir], Optional := true },
       { Rule := script,
         Outputs := [ctx.ModuleName],
         Inputs := [s.properties.Script],
         Args := s.ruleArgs,
         Implicits := s.implicits ctx,
         OrderOnly := [s.properties.WorkingDir] }] := by
  simp [Script.GenerateBuildActions, h, Script.ruleArgs, Script.implicits]

/-- The three actions of a script module that declares an output. -/
theorem Script.actions_with_outputs (s : Script) (ctx : ModuleContext)
    (h : s.properties.Outputs ++ s.properties.GenFiles ≠ []) :
    (s.GenerateBuildActions ctx).actions = some
      [{ Rule := mkdir, Outputs := [s.properties.WorkingDir], Optional := true },
       { Rule := script,
         Outputs := s.properties.Outputs ++ s.properties.GenFiles,
         Inputs := [s.properties.Script],
         Args := s.ruleArgs,
         Implicits := s.implicits ctx,
         OrderOnly := [s.properties.WorkingDir],
         Optional := true },
       { Rule := Phony,
         Outputs := [ctx.ModuleName],
         Inputs := s.properties.Outputs ++ s.properties.GenFiles }] := by
  have hl : (s.properties.Outputs ++ s.properties.GenFiles).length ≠ 0 := by
    simpa [List.length_eq_zero] using h
  simp only [Script.GenerateBuildActions, Script.ruleArgs, Script.implicits]
  rw [if_pos hl]

/-- C3, as stated, fails: the script module `scriptInOwnDir` declares no output
and its working directory `m` is also the module's name, so two of its
actions have the output list `[m]`, the mkdir action and the
script-invocation action. -/
theorem script_named_as_working_dir_two_actions :
    scriptInOwnDir.properties.Outputs = [] ∧ scriptInOwnDir.properties.GenFiles = [] ∧
    (scriptInOwnDir.GenerateBuildActions exampleCtx).actions.map
        (fun acts =>
          (acts.filter (fun a => a.Outputs = [exampleCtx.ModuleName])).map (fun a => a.Rule.name))
      = some ["mkdir", "script"] := by
  decide

/-- C3, amended. A script module whose Outputs and GenFiles are both empty
compiles to exactly two actions: the mkdir action of the working directory
and the script-invocation action (rule script, output the module's name,
input the script, order-only the working directory). None of them is a phony
action, and when the working directory is not named like the module the
script-invocation action is the only action whose output list is the
module's name. -/
theorem script_without_outputs_actions (s : Script) (ctx : ModuleContext)
    (ho : s.properties.Outputs = []) (hg : s.properties.GenFiles = []) :
    ∃ dir run : BuildParams,
      (s.GenerateBuildActions ctx).actions = some [dir, run] ∧
      dir = { Rule := mkdir, Outputs := [s.properties.WorkingDir], Optional := true } ∧
      run = { Rule := script,
              Outputs := [ctx.ModuleName],
              Inputs := [s.properties.Script],
              Args := s.ruleArgs,
              Implicits := s.implicits ctx,
              OrderOnly := [s.properties.WorkingDir] } ∧
      (∀ a ∈ [dir, run], a.Rule ≠ Phony) ∧
      (s.properties.WorkingDir ≠ ctx.ModuleName →
        [dir, run].filter (fun a => a.Outputs = [ctx.ModuleName]) = [run]) := by
  refine ⟨_, _, Script.actions_without_outputs s ctx (by simp [ho, hg]), rfl, rfl, ?_, ?_⟩
  · intro a ha
    simp only [List.mem_cons, List.mem_singleton, List.not_mem_nil, or_false] at ha
    rcases ha with rfl | rfl <;> simp [mkdir, script, Phony]
  · intro hne
    simp [List.filter_cons, hne]

/-- The script module `scriptNoOutputs`, run in `work`, has one action with the
output list `[m]`: the script-invocation action. -/
theorem script_without_outputs_actions_witness :
    (scriptNoOutputs.GenerateBuildActions exampleCtx).actions.map
        (fun acts => acts.map (fun a => (a.Rule.name, a.Outputs, a.Inputs, a.OrderOnly)))
      = some [("mkdir", ["work"], [], []), ("script", ["m"], ["run.sh"], ["work"])] := by
  obtain ⟨dir, run, h, hd, hr, -, -⟩ :=
    script_without_outputs_actions scriptNoOutputs exampleCtx rfl rfl
  rw [h, hd, hr]
  decide

/-- C4. A script module whose `Outputs ++ GenFiles` is not empty compiles to the
mkdir action of the working directory, then the script-invocation action
with the outputs `Outputs ++ GenFiles` and the script as input, then the
phony action named after the module with the inputs `Outputs ++ GenFiles`. -/
theorem script_with_outputs_actions (s : Script) (ctx : ModuleContext)
    (h : s.properties.Outputs ++ s.properties.GenFiles ≠ []) :
    (s.GenerateBuildActions ctx).actions = some
      [{ Rule := mkdir, Outputs := [s.properties.WorkingDir], Optional := true },
       { Rule := script,
         Outputs := s.properties.Outputs ++ s.properties.GenFiles,
         Inputs := [s.properties.Script],
         Args := s.ruleArgs,
         Implicits := s.implicits ctx,
         OrderOnly := [s.properties.WorkingDir],
         Optional := true },
       { Rule := Phony,
         Outputs := [ctx.ModuleName],
         Inputs := s.properties.Outputs ++ s.properties.GenFiles }] :=
  Script.actions_with_outputs s ctx h

/-- The script module `scriptWithOutputs` generates `x` and `y` and groups them
under `m`. -/
theorem script_with_outputs_actions_witness :
    (scriptWithOutputs.GenerateBuildActions exampleCtx).actions.map
        (fun acts => acts.map (fun a => (a.Rule.name, a.Outputs, a.Inputs)))
      = some [("mkdir", ["work"], []), ("script", ["x", "y"], ["run.sh"]),
          ("phony", ["m"], ["x", "y"])] := by
  rw [script_with_outputs_actions scriptWithOutputs exampleCtx (by decide)]
  decide

/-- C5, as stated, fails: the action of `scriptWithOutputs` that produces `x` and
`y` references the rule `script`, whose generator flag is not set. -/
theorem script_action_not_generator :
    (scriptWithOutputs.GenerateBuildActions exampleCtx).actions.map
        (fun acts =>
          (acts.filter (fun a => a.Outputs = ["x", "y"])).map
            (fun a => (a.Rule.name, a.Rule.params.Generator)))
      = some [("script", false)] := by
  decide

/-- C5, amended. The script-invocation action of a script module that declares
an output or a generated file references the rule `script`, which is not a
generator rule; the action is optional. -/
theorem script_with_outputs_rule (s : Script) (ctx : ModuleContext)
    (h : s.properties.Outputs ++ s.properties.GenFiles ≠ []) :
    ∃ dir run aggregate : BuildParams,
      (s.GenerateBuildActions ctx).actions = some [dir, run, aggregate] ∧
      run.Outputs = s.properties.Outputs ++ s.properties.GenFiles ∧
      run.Rule = script ∧
      run.Rule.params.Generator = false ∧
      run.Optional = true :=
  ⟨_, _, _, Script.actions_with_outputs s ctx h, rfl, rfl, rfl, rfl⟩

/-- The action of `scriptWithOutputs` with the outputs `x`, `y` is an optional
action of a rule that is no generator. -/
theorem script_with_outputs_rule_witness :
    ∃ dir run aggregate : BuildParams,
      (scriptWithOutputs.GenerateBuildActions exampleCtx).actions
        = some [dir, run, aggregate] ∧
      run.Outputs = ["x", "y"] ∧
      run.Rule = script ∧
      run.Rule.params.Generator = false ∧
      run.Optional = true :=
  script_with_outputs_rule scriptWithOutputs exampleCtx (by decide)

/-! ## Make and Ninja -/

/-- C6. A make module and a ninja module each compile to exactly one action;
its output list is the module's name alone when the Outputs property is
empty, and the Outputs property itself otherwise. -/
theorem make_ninja_outputs (m : Make) (n : Ninja) (ctx : ModuleContext) :
    (∃ a : BuildParams,
      (m.GenerateBuildActions ctx).actions = some [a] ∧
      (m.properties.Outputs = [] → a.Outputs = [ctx.ModuleName]) ∧
      (m.properties.Outputs ≠ [] → a.Outputs = m.properties.Outputs)) ∧
    (∃ a : BuildParams,
      (n.GenerateBuildActions ctx).actions = some [a] ∧
      (n.properties.Outputs = [] → a.Outputs = [ctx.ModuleName]) ∧
      (n.properties.Outputs ≠ [] → a.Outputs = n.properties.Outputs)) := by
  constructor
  · refine ⟨_, rfl, ?_, ?_⟩
    · intro h; simp [h]
    · intro h
      have : m.properties.Outputs.length > 0 := List.length_pos.mpr h
      simp [this]
  · refine ⟨_, rfl, ?_, ?_⟩
    · intro h; simp [h]
    · intro h
      have : n.properties.Outputs.length > 0 := List.length_pos.mpr h
      simp [this]

/-- The make module `makeNoOutputs` has the output `m`; the ninja module
`ninjaWithOutputs` has its two declared outputs. -/
theorem make_ninja_outputs_witness :
    (makeNoOutputs.GenerateBuildActions exampleCtx).actions.map
        (fun acts => acts.map (fun a => a.Outputs)) = some [["m"]] ∧
    (ninjaWithOutputs.GenerateBuildActions exampleCtx).actions.map
        (fun acts => acts.map (fun a => a.Outputs)) = some [["bin/tool", "lib/libtool.a"]] := by
  obtain ⟨⟨a, ha, ha1, -⟩, ⟨b, hb, -, hb2⟩⟩ :=
    make_ninja_outputs makeNoOutputs ninjaWithOutputs exampleCtx
  rw [ha, hb]
  exact ⟨by simp [ha1 rfl, ModuleContext.ModuleName, exampleCtx],
    by simp [hb2 (by decide), ninjaWithOutputs]⟩

/-! ## Target names -/

/-- Every `GenerateBuildActions` leaves the module's name in `targetName`. -/
theorem BuilderModule.targetName_generated (m : BuilderModule) (ctx : ModuleContext) :
    (m.GenerateBuildActions ctx).module.TargetName = ctx.ModuleName := by
  rcases m with a | c | c | c | g | i | m | n | s
  · rfl
  · simp only [BuilderModule.GenerateBuildActions, Clean.GenerateBuildActions]
    split <;> rfl
  · rfl
  · simp only [BuilderModule.GenerateBuildActions, Copy.GenerateBuildActions]
    split
    · rfl
    · split <;> rfl
  · rfl
  · rfl
  · rfl
  · rfl
  · simp only [BuilderModule.GenerateBuildActions, Script.GenerateBuildActions]
    split <;> rfl

/-- C7. After `GenerateBuildActions`, the target name of a module of any of the
nine kinds is the module's own name, whatever its properties are (for a copy
module also when the call ends in a panic, the name being set first). -/
theorem target_name_is_module_name (m : BuilderModule) (ctx : ModuleContext) :
    (m.GenerateBuildActions ctx).module.TargetName = ctx.ModuleName :=
  BuilderModule.targetName_generated m ctx

/-- C8 fails on the code. The cmake, gn and install modules of the examples are
named `m`, and `m` is their target name after `GenerateBuildActions`, but no
action compiled for them has the output `m`. -/
theorem target_name_not_an_output :
    (((BuilderModule.cmake cmakeExample).GenerateBuildActions exampleCtx).module.TargetName = "m" ∧
      ((BuilderModule.cmake cmakeExample).GenerateBuildActions exampleCtx).actions.map allOutputs
        = some ["out", "out/build.ninja"]) ∧
    (((BuilderModule.gn gnExample).GenerateBuildActions exampleCtx).module.TargetName = "m" ∧
      ((BuilderModule.gn gnExample).GenerateBuildActions exampleCtx).actions.map allOutputs
        = some ["out/build.ninja"]) ∧
    (((BuilderModule.install installExample).GenerateBuildActions exampleCtx).module.TargetName
        = "m" ∧
      ((BuilderModule.install installExample).GenerateBuildActions exampleCtx).actions.map
          allOutputs
        = some ["dst", "dst/tool"]) := by
  decide

/-- C9 fails on the code. An install module without sources compiles to two
actions, and the install action has no output (and no input). -/
theorem install_without_sources_no_output :
    ((BuilderModule.install installNoSources).GenerateBuildActions exampleCtx).actions.map
        (fun acts => acts.map (fun a => (a.Rule.name, a.Outputs, a.Inputs)))
      = some [("mkdir", ["dst"], []), ("install", [], [])] := by
  decide

/-- C10, as stated, fails: the sources `a/x` and `b/x` of `copySameBase` are
different paths, and both per-file copy actions have the output `dst/x`. -/
theorem copy_same_base_outputs_collide :
    2 ≤ copySameBase.properties.Sources.length ∧
    copySameBase.properties.Sources.Nodup ∧
    (copySameBase.GenerateBuildActions exampleCtx).actions.map cpOutputs
      = some ["dst/x", "dst/x"] := by
  decide

theorem flatten_map_singleton {α β : Type} (f : α → β) (xs : List α) :
    (xs.map (fun x => [f x])).flatten = xs.map f := by
  induction xs with
  | nil => rfl
  | cons x xs ih => simp [List.flatten, ih]

/-- The per-file outputs of a copy module with two or more sources. -/
theorem Copy.cpOutputs_many_sources (c : Copy) (ctx : ModuleContext)
    (h : 2 ≤ c.properties.Sources.length) :
    (c.GenerateBuildActions ctx).actions.map cpOutputs = some
      (c.properties.Sources.map
        (fun s => filepath.Join [c.properties.Destination, filepath.Base s])) := by
  rw [Copy.actions_many_sources c ctx h]
  simp only [Option.map_some', cpOutputs, List.filter_append, List.flatMap_append]
  have h1 : mkdir ≠ cp := by decide
  have h2 : Phony ≠ cp := by decide
  simp [List.filter_cons, h1, h2, List.filter_map, List.flatMap, Function.comp_def,
    flatten_map_singleton]

/-- C10, amended. When the base names of the two or more sources of a copy
module are pairwise distinct and none of them is `.`, `..` or `/`, the outputs
of the per-file copy actions are pairwise distinct. -/
theorem copy_outputs_distinct (c : Copy) (ctx : ModuleContext)
    (h : 2 ≤ c.properties.Sources.length)
    (hp : ∀ s ∈ c.properties.Sources,
      filepath.Base s ≠ "." ∧ filepath.Base s ≠ ".." ∧ filepath.Base s ≠ "/")
    (hd : (c.properties.Sources.map filepath.Base).Nodup) :
    ∃ acts : List BuildParams,
      (c.GenerateBuildActions ctx).actions = some acts ∧ (cpOutputs acts).Nodup := by
  have hm := Copy.cpOutputs_many_sources c ctx h
  cases ha : (c.GenerateBuildActions ctx).actions with
  | none => simp [ha] at hm
  | some acts =>
    refine ⟨acts, rfl, ?_⟩
    rw [ha, Option.map_some', Option.some.injEq] at hm
    rw [hm]
    have hcomp : c.properties.Sources.map
        (fun s => filepath.Join [c.properties.Destination, filepath.Base s])
        = (c.properties.Sources.map filepath.Base).map
            (fun b => filepath.Join [c.properties.Destination, b]) := by
      simp [List.map_map, Function.comp_def]
    rw [hcomp]
    refine List.Nodup.map_on ?_ hd
    intro x hx y hy hxy
    obtain ⟨sx, hsx, rfl⟩ := List.mem_map.mp hx
    obtain ⟨sy, hsy, rfl⟩ := List.mem_map.mp hy
    obtain ⟨x1, x2, x3⟩ := hp sx hsx
    obtain ⟨y1, y2, y3⟩ := hp sy hsy
    exact Join_injective_on_proper c.properties.Destination _ _
      (Base_proper sx x1 x2 x3) (Base_proper sy y1 y2 y3) hxy

/-- The copy module with the sources `a` and `b` has the distinct per-file
outputs `dst/a` and `dst/b`. -/
theorem copy_outputs_distinct_witness :
    ∃ acts : List BuildParams,
      (copyTwoSources.GenerateBuildActions exampleCtx).actions = some acts ∧
      (cpOutputs acts).Nodup :=
  copy_outputs_distinct copyTwoSources exampleCtx (by decide) (by decide) (by decide)

/-! ## Where the two invariants do hold -/

/-- For alias, clean, copy and script modules, and for make and ninja modules
without declared Outputs, the module's target name is among the outputs of
the compiled actions. -/
theorem target_name_is_an_output (m : BuilderModule) (ctx : ModuleContext)
    (acts : List BuildParams) (hk : emitsOwnName m = true)
    (h : (m.GenerateBuildActions ctx).actions = some acts) :
    (m.GenerateBuildActions ctx).module.TargetName ∈ allOutputs acts := by
  rw [BuilderModule.targetName_generated]
  rcases m with a | c | c | c | g | i | m | n | s
  · simp only [BuilderModule.GenerateBuildActions, Alias.GenerateBuildActions,
      Option.some.injEq] at h
    subst h
    simp [allOutputs]
  · simp only [BuilderModule.GenerateBuildActions, Clean.GenerateBuildActions] at h
    split at h <;> simp only [Option.some.injEq] at h <;> subst h <;> simp [allOutputs]
  · exact absurd hk (by simp [emitsOwnName])
  · simp only [BuilderModule.GenerateBuildActions, Copy.GenerateBuildActions] at h
    split at h
    · simp only [Option.some.injEq] at h
      subst h
      simp [allOutputs, Copy.buildCalls]
    · split at h
      · simp only [Option.some.injEq] at h
        subst h
        simp [allOutputs, Copy.buildCalls]
      · exact absurd h (by simp)
  · exact absurd hk (by simp [emitsOwnName])
  · exact absurd hk (by simp [emitsOwnName])
  · have ho : m.properties.Outputs = [] := List.isEmpty_iff.mp hk
    simp only [BuilderModule.GenerateBuildActions, Make.GenerateBuildActions,
      Option.some.injEq] at h
    subst h
    simp [allOutputs, ho]
  · have ho : n.properties.Outputs = [] := List.isEmpty_iff.mp hk
    simp only [BuilderModule.GenerateBuildActions, Ninja.GenerateBuildActions,
      Option.some.injEq] at h
    subst h
    simp [allOutputs, ho]
  · simp only [BuilderModule.GenerateBuildActions, Script.GenerateBuildActions] at h
    split at h <;> simp only [Option.some.injEq] at h <;> subst h <;> simp [allOutputs]

/-- The target name `m` of the copy module `copyTwoSources` is an output of its
actions. -/
theorem target_name_is_an_output_witness :
    ((BuilderModule.copy copyTwoSources).GenerateBuildActions exampleCtx).module.TargetName
      ∈ allOutputs
          [{ Rule := mkdir, Outputs := ["dst/"], Optional := true },
           { Rule := cp, Outputs := ["dst/a"], Inputs := ["a"], Implicits := ["dep"],
             OrderOnly := ["dst/"], Optional := true },
           { Rule := cp, Outputs := ["dst/b"], Inputs := ["b"], Implicits := ["dep"],
             OrderOnly := ["dst/"], Optional := true },
           { Rule := Phony, Outputs := ["m"], Inputs := ["dst/a", "dst/b"] }] :=
  target_name_is_an_output (.copy copyTwoSources) exampleCtx _ rfl (by decide)

/-- Every action compiled for a module has at least one output, unless the
module is an install module without sources. -/
theorem outputs_nonempty_with_sources (m : BuilderModule) (ctx : ModuleContext)
    (acts : List BuildParams) (hk : listsSources m = true)
    (h : (m.GenerateBuildActions ctx).actions = some acts) :
    ∀ a ∈ acts, a.Outputs ≠ [] := by
  rcases m with a | c | c | c | g | i | m | n | s
  · simp only [BuilderModule.GenerateBuildActions, Alias.GenerateBuildActions,
      Option.some.injEq] at h
    subst h
    simp
  · simp only [BuilderModule.GenerateBuildActions, Clean.GenerateBuildActions] at h
    split at h <;> simp only [Option.some.injEq] at h <;> subst h <;> simp
  · simp only [BuilderModule.GenerateBuildActions, CMake.GenerateBuildActions,
      Option.some.injEq] at h
    subst h
    simp
  · simp only [BuilderModule.GenerateBuildActions, Copy.GenerateBuildActions] at h
    split at h
    · simp only [Option.some.injEq] at h
      subst h
      intro a ha
      simp only [Copy.buildCalls, List.mem_append, List.mem_singleton, List.mem_map] at ha
      rcases ha with (rfl | ⟨p, -, rfl⟩) | rfl <;> simp
    · split at h
      · simp only [Option.some.injEq] at h
        subst h
        intro a ha
        simp only [Copy.buildCalls, List.mem_append, List.mem_singleton, List.mem_map] at ha
        rcases ha with (rfl | ⟨p, -, rfl⟩) | rfl <;> simp
      · exact absurd h (by simp)
  · simp only [BuilderModule.GenerateBuildActions, Gn.GenerateBuildActions,
      Option.some.injEq] at h
    subst h
    simp
  · have hs : i.properties.Sources ≠ [] := by
      simpa [listsSources, List.isEmpty_iff] using hk
    simp only [BuilderModule.GenerateBuildActions, Install.GenerateBuildActions,
      Option.some.injEq, assignEach_makeStrings] at h
    subst h
    simp [hs]
  · simp only [BuilderModule.GenerateBuildActions, Make.GenerateBuildActions,
      Option.some.injEq] at h
    subst h
    intro a ha
    rw [List.mem_singleton] at ha
    subst ha
    simp only
    split
    · exact List.ne_nil_of_length_pos (by assumption)
    · simp
  · simp only [BuilderModule.GenerateBuildActions, Ninja.GenerateBuildActions,
      Option.some.injEq] at h
    subst h
    intro a ha
    rw [List.mem_singleton] at ha
    subst ha
    simp only
    split
    · exact List.ne_nil_of_length_pos (by assumption)
    · simp
  · simp only [BuilderModule.GenerateBuildActions, Script.GenerateBuildActions] at h
    split at h <;> simp only [Option.some.injEq] at h <;> subst h
    · rename_i hl
      have : s.properties.Outputs ++ s.properties.GenFiles ≠ [] := by
        intro e; exact hl (by rw [e]; rfl)
      simpa using this
    · simp

/-- Both actions of the install module `installExample`, which lists a source,
have an output. -/
theorem outputs_nonempty_with_sources_witness :
    ∀ a ∈ [({ Rule := mkdir, Outputs := ["dst"], Optional := true } : BuildParams),
           { Rule := install, Outputs := ["dst/tool"], Inputs := ["bin/tool"],
             Implicits := ["dep"], OrderOnly := ["dst"] }],
      a.Outputs ≠ [] :=
  outputs_nonempty_with_sources (.install installExample) exampleCtx _ (by decide) (by decide)

/-! ## Direct dependencies -/

/-- The visitor of `getDirectDependencies` appends to what it has collected. -/
theorem visit_foldl_append (ds : List Module) :
    ∀ acc : List String,
      ds.foldl
          (fun acc m =>
            if isBuilderModule m then
              (match m with
                | .builder target => acc ++ [target.TargetName]
                | .other => acc)
            else acc)
          acc
        = acc ++ ds.filterMap dependencyTarget := by
  induction ds with
  | nil => intro acc; simp
  | cons d ds ih =>
    intro acc
    cases d with
    | builder b =>
      rw [List.foldl_cons]
      show List.foldl _ (acc ++ [b.TargetName]) ds = _
      rw [ih]
      simp [dependencyTarget]
    | other =>
      rw [List.foldl_cons]
      show List.foldl _ acc ds = _
      rw [ih]
      simp [dependencyTarget]

theorem filterMap_builder (ds : List BuilderModule) :
    (ds.map Module.builder).filterMap dependencyTarget = ds.map BuilderModule.TargetName := by
  induction ds with
  | nil => rfl
  | cons d ds ih => simp [List.filterMap_cons, dependencyTarget, ih]

/-- The direct dependency targets are the target names of the builder modules
among the direct dependencies, in their order. -/
theorem getDirectDependencies_eq (ctx : ModuleContext) :
    getDirectDependencies ctx = ctx.directDeps.filterMap dependencyTarget := by
  have h := visit_foldl_append ctx.directDeps []
  simpa [getDirectDependencies, ModuleContext.VisitDirectDepsIf] using h

/-- C11. `getDirectDependencies` returns the target names of the direct
dependencies that are builder modules, in the order in which the dependencies
are visited, each dependency contributing once; when all `n` dependencies
are builder modules the result has length `n` and its `i`-th entry is the
target name of the `i`-th dependency. -/
theorem direct_dependencies_in_order (ctx : ModuleContext) :
    getDirectDependencies ctx = ctx.directDeps.filterMap dependencyTarget ∧
    ∀ ds : List BuilderModule, ctx.directDeps = ds.map Module.builder →
      getDirectDependencies ctx = ds.map BuilderModule.TargetName ∧
      (getDirectDependencies ctx).length = ds.length ∧
      ∀ (i : Nat) (h : i < ds.length),
        (getDirectDependencies ctx)[i]? = some (ds.get ⟨i, h⟩).TargetName := by
  refine ⟨getDirectDependencies_eq ctx, ?_⟩
  intro ds hds
  have hm : getDirectDependencies ctx = ds.map BuilderModule.TargetName := by
    rw [getDirectDependencies_eq, hds, filterMap_builder]
  refine ⟨hm, by simp [hm], ?_⟩
  intro i h
  simp [hm, List.getElem?_map, List.getElem?_eq_getElem h]

/-- The dependencies of `ctxThreeDeps` give `a`, `b`, `a`; the dependencies of
`exampleCtx`, one of which is no builder module, give `dep`. -/
theorem direct_dependencies_in_order_witness :
    getDirectDependencies ctxThreeDeps = ["a", "b", "a"] ∧
    getDirectDependencies exampleCtx = ["dep"] := by
  constructor
  · rw [((direct_dependencies_in_order ctxThreeDeps).2
      [.alias { targetName := "a", config := exampleConfig },
       .alias { targetName := "b", config := exampleConfig },
       .alias { targetName := "a", config := exampleConfig }] rfl).1]
    decide
  · rw [(direct_dependencies_in_order exampleCtx).1]
    decide

/-! ## Bootstrap -/

/-- C12. The bootstrap singleton produces exactly one action; its one output is
`outFile`, its rule is a generator with the dependency file `depFile`, and
its one argument binds `rootBlueprintFile` to the root Blueprints file. -/
theorem bootstrap_one_generator_action (m : Bootstrap) (g : Globals) (look : LookPathResult) :
    ∃ a : BuildParams,
      m.GenerateBuildActions g look = some [a] ∧
      a.Outputs = [g.outFile] ∧
      a.Rule.params.Generator = true ∧
      a.Rule.params.Depfile = g.depFile ∧
      a.Rule.params.Command = look.path ++ " $rootBlueprintFile" ∧
      a.Args = [("rootBlueprintFile", g.rootBlueprintsFile)] :=
  ⟨_, rfl, rfl, rfl, rfl, rfl, rfl⟩

/-- C13, as stated, fails: for the failed lookup `lookPathFailed` the singleton
still returns its one action, with the empty path in the command. -/
theorem bootstrap_action_after_failed_lookup :
    lookPathFailed.err.isSome = true ∧
    (Bootstrap.GenerateBuildActions { config := exampleConfig } exampleGlobals
        lookPathFailed).map
        (fun acts => acts.map (fun a => (a.Rule.params.Command, a.Outputs)))
      = some [(" $rootBlueprintFile", ["/out/build.ninja"])] := by
  decide

/-- C13, amended. The error of the executable lookup is discarded: with an error
the singleton returns what it returns without one, the one regeneration
action whose command starts with the path the lookup returned. -/
theorem bootstrap_discards_lookup_error (m : Bootstrap) (g : Globals) (path err : String) :
    m.GenerateBuildActions g { path := path, err := some err }
      = m.GenerateBuildActions g { path := path, err := none } ∧
    ∃ a : BuildParams,
      m.GenerateBuildActions g { path := path, err := some err } = some [a] ∧
      a.Outputs = [g.outFile] ∧
      a.Rule.params.Command = path ++ " $rootBlueprintFile" :=
  ⟨rfl, _, rfl, rfl, rfl⟩

/-! ## CMake, Gn, Install and Clean -/

/-- C17. A cmake module compiles to two actions: the optional mkdir action of
the build directory, then the action of the generator rule `cmake` with the
output `Join(BuildDir, "build.ninja")`, the build directory as order-only
dependency, the direct dependency targets as implicits, and the arguments
`cmakeOptions` (each option behind `-D`, joined by spaces in declaration
order, empty without options), `cmakeDir`, `envVars` and `buildDir`. -/
theorem cmake_actions (c : CMake) (ctx : ModuleContext) :
    (c.GenerateBuildActions ctx).actions = some
      [{ Rule := mkdir, Outputs := [c.properties.BuildDir], Optional := true },
       { Rule := cmake,
         Outputs := [filepath.Join [c.properties.BuildDir, "build.ninja"]],
         Implicits := getDirectDependencies ctx,
         OrderOnly := [c.properties.BuildDir],
         Args :=
           [("cmakeOptions",
              strings.Join (c.properties.Options.map (fun o => "-D" ++ o)) " "),
            ("cmakeDir", c.properties.Src),
            ("envVars", strings.Join c.properties.Env " "),
            ("buildDir", c.properties.BuildDir)] }] ∧
    cmake.params.Generator = true ∧
    (c.properties.Options = [] →
      strings.Join (c.properties.Options.map (fun o => "-D" ++ o)) " " = "") := by
  refine ⟨?_, rfl, ?_⟩
  · simp [CMake.GenerateBuildActions, assignEach_makeStrings]
  · intro h
    rw [h]
    rfl

/-- The cmake module `cmakeExample` has the one option `CMAKE_BUILD_TYPE=Release`. -/
theorem cmake_actions_witness :
    (cmakeExample.GenerateBuildActions exampleCtx).actions.map
        (fun acts => acts.map (fun a => (a.Rule.name, a.Outputs, a.OrderOnly, a.Args)))
      = some
          [("mkdir", ["out"], [], []),
           ("cmake", ["out/build.ninja"], ["out"],
             [("cmakeOptions", "-DCMAKE_BUILD_TYPE=Release"), ("cmakeDir", "src"),
              ("envVars", ""), ("buildDir", "out")])] := by
  rw [(cmake_actions cmakeExample exampleCtx).1]
  rfl

/-- C18. A gn module compiles to one action and no mkdir action: the action of
the generator rule `gn` with the output `Join(BuildDir, "build.ninja")`, the
direct dependency targets as implicits, no order-only dependency, and the
argument `gnArgs` holding the Args property joined by spaces. -/
theorem gn_actions (g : Gn) (ctx : ModuleContext) :
    (g.GenerateBuildActions ctx).actions = some
      [{ Rule := gn,
         Outputs := [filepath.Join [g.properties.BuildDir, "build.ninja"]],
         Implicits := getDirectDependencies ctx,
         OrderOnly := [],
         Args :=
           [("envVars", strings.Join g.properties.Env " "),
            ("gnDir", g.properties.SrcDir),
            ("gnArgs", strings.Join g.properties.Args " "),
            ("buildDir", g.properties.BuildDir)] }] ∧
    gn.params.Generator = true :=
  ⟨rfl, rfl⟩

/-- C19. An install module compiles to two actions whatever the number of its
sources: the optional mkdir action of the destination `D`, then one install
action whose inputs are the sources, whose outputs are `Join(D, Base(s))`
for each source `s` in order, with `D` as order-only dependency and the
direct dependency targets as implicits. -/
theorem install_actions (i : Install) (ctx : ModuleContext) :
    (i.GenerateBuildActions ctx).actions = some
      [{ Rule := mkdir, Outputs := [i.properties.Destination], Optional := true },
       { Rule := install,
         Outputs := i.properties.Sources.map
           (fun s => filepath.Join [i.properties.Destination, filepath.Base s]),
         Inputs := i.properties.Sources,
         Implicits := getDirectDependencies ctx,
         OrderOnly := [i.properties.Destination] }] ∧
    (i.properties.Sources.map
        (fun s => filepath.Join [i.properties.Destination, filepath.Base s])).length
      = i.properties.Sources.length := by
  refine ⟨?_, by simp⟩
  simp [Install.GenerateBuildActions, assignEach_makeStrings]

/-- C20. A clean module compiles to one action with the module's name as
output, no input and the direct dependency targets as implicits: with
directories, the action of the rule `rm` whose argument `files` holds the
directories joined by spaces; without, a phony action without arguments. -/
theorem clean_actions (c : Clean) (ctx : ModuleContext) :
    (c.properties.Dirs ≠ [] →
      (c.GenerateBuildActions ctx).actions = some
        [{ Rule := rm,
           Outputs := [ctx.ModuleName],
           Inputs := [],
           Implicits := getDirectDependencies ctx,
           Args := [("files", strings.Join c.properties.Dirs " ")] }]) ∧
    (c.properties.Dirs = [] →
      (c.GenerateBuildActions ctx).actions = some
        [{ Rule := Phony,
           Outputs := [ctx.ModuleName],
           Inputs := [],
           Implicits := getDirectDependencies ctx,
           Args := [] }]) := by
  constructor
  · intro h
    simp [Clean.GenerateBuildActions, h]
  · intro h
    simp [Clean.GenerateBuildActions, h]

/-- The clean module `cleanTwoDirs` removes `out/a out/b`. -/
theorem clean_actions_witness :
    (cleanTwoDirs.GenerateBuildActions exampleCtx).actions.map
        (fun acts => acts.map (fun a => (a.Rule.name, a.Outputs, a.Implicits, a.Args)))
      = some [("rm", ["m"], ["dep"], [("files", "out/a out/b")])] := by
  rw [(clean_actions cleanTwoDirs exampleCtx).1 (by decide)]
  rfl

/-! ## Triples -/

theorem notSep_self (sep : Char) : notSep sep sep = false := by
  simp [notSep]

theorem notSep_of_ne {sep c : Char} (h : c ≠ sep) : notSep sep c = true := by
  simp [notSep, h]

theorem takeWhile_notSep_append (sep : Char) (a x : List Char) (h : sep ∉ a) :
    (a ++ sep :: x).takeWhile (notSep sep) = a := by
  induction a with
  | nil => simp [notSep_self]
  | cons c cs ih =>
    simp only [List.mem_cons, not_or] at h
    have hc : c ≠ sep := fun e => h.1 e.symm
    simp [notSep_of_ne hc, ih h.2]

theorem dropWhile_notSep_append (sep : Char) (a x : List Char) (h : sep ∉ a) :
    (a ++ sep :: x).dropWhile (notSep sep) = sep :: x := by
  induction a with
  | nil => simp [notSep_self]
  | cons c cs ih =>
    simp only [List.mem_cons, not_or] at h
    have hc : c ≠ sep := fun e => h.1 e.symm
    simp [notSep_of_ne hc, ih h.2]

theorem takeWhile_notSep_self (sep : Char) (a : List Char) (h : sep ∉ a) :
    a.takeWhile (notSep sep) = a := by
  induction a with
  | nil => simp
  | cons c cs ih =>
    simp only [List.mem_cons, not_or] at h
    have hc : c ≠ sep := fun e => h.1 e.symm
    rw [List.takeWhile_cons_of_pos (notSep_of_ne hc), ih h.2]

/-- The first component of a split is the text before the first separator. -/
theorem splitOnChar_head (sep : Char) (s : List Char) :
    ∃ t, splitOnChar sep s = s.takeWhile (notSep sep) :: t := by
  induction s with
  | nil => exact ⟨[], by simp [splitOnChar]⟩
  | cons c cs ih =>
    obtain ⟨t, ht⟩ := ih
    by_cases h : c = sep
    · subst h
      exact ⟨splitOnChar c cs, by simp [splitOnChar, notSep_self]⟩
    · exact ⟨t, by simp [splitOnChar, h, ht, notSep_of_ne h]⟩

/-- A text with `n` separators has `n + 1` components. -/
theorem length_splitOnChar (sep : Char) (s : List Char) :
    (splitOnChar sep s).length = s.count sep + 1 := by
  induction s with
  | nil => simp [splitOnChar]
  | cons c cs ih =>
    by_cases h : c = sep
    · subst h
      simp [splitOnChar, ih]
    · have hne : (c == sep) = false := by simpa using h
      cases hx : splitOnChar sep cs with
      | nil => exact absurd hx (splitOnChar_ne_nil sep cs)
      | cons x xs =>
        rw [hx] at ih
        simp [splitOnChar, h, hx, List.count_cons, hne] at ih ⊢
        exact ih

/-- The split of a text at its first separator. -/
theorem splitOnChar_of_dropWhile (sep : Char) (s rest : List Char) (d : Char)
    (h : s.dropWhile (notSep sep) = d :: rest) :
    splitOnChar sep s = s.takeWhile (notSep sep) :: splitOnChar sep rest := by
  induction s with
  | nil => simp at h
  | cons c cs ih =>
    by_cases hc : c = sep
    · subst hc
      rw [List.dropWhile_cons_of_neg (by simp [notSep_self])] at h
      rw [List.takeWhile_cons_of_neg (by simp [notSep_self])]
      simp only [List.cons.injEq] at h
      simp [splitOnChar, h.2]
    · rw [List.dropWhile_cons_of_pos (notSep_of_ne hc)] at h
      rw [List.takeWhile_cons_of_pos (notSep_of_ne hc)]
      simp [splitOnChar, hc, ih h]

theorem splitOnChar_of_dropWhile_nil (sep : Char) (s : List Char)
    (h : s.dropWhile (notSep sep) = []) : splitOnChar sep s = [s] := by
  apply splitOnChar_of_not_mem
  intro hmem
  have := List.dropWhile_eq_nil_iff.mp h sep hmem
  simp [notSep_self] at this

/-- Splitting into at most `n` components is the full split of a text that has
no more than `n` components. -/
theorem splitNChar_eq_splitOnChar (sep : Char) :
    ∀ (n : Nat) (s : List Char), (splitOnChar sep s).length ≤ n →
      splitNChar sep n s = splitOnChar sep s := by
  intro n
  induction n with
  | zero =>
    intro s h
    have := length_splitOnChar sep s
    omega
  | succ n ih =>
    intro s h
    cases hd : s.dropWhile (notSep sep) with
    | nil =>
      rw [splitOnChar_of_dropWhile_nil sep s hd]
      cases n with
      | zero => simp [splitNChar]
      | succ k => simp [splitNChar, hd]
    | cons d rest =>
      rw [splitOnChar_of_dropWhile sep s rest d hd] at h ⊢
      have hr := length_splitOnChar sep rest
      cases n with
      | zero => simp only [List.length_cons] at h; omega
      | succ k =>
        have hk : (splitOnChar sep rest).length ≤ k + 1 := by
          simp only [List.length_cons] at h; omega
        simp [splitNChar, hd, ih rest hk]

/-- The last entry of a non-empty slice, as the index `len(s) - 1` reads it. -/
theorem getElem?_length_sub_one_concat {α : Type} (xs : List α) (x : α) :
    (xs ++ [x])[(xs ++ [x]).length - 1]? = some x := by
  simp

/-- Indexing the components of a split at `len(s) - 1` reads the last one. -/
theorem last_component_title (f : String → String) (comps : List (List Char))
    (init : List (List Char)) (last : List Char) (h : comps = init ++ [last]) :
    ((comps.map String.mk)[(comps.map String.mk).length - 1]?).map f
      = some (f (String.mk last)) := by
  subst h
  rw [List.map_append, List.map_singleton, getElem?_length_sub_one_concat]
  rfl

theorem HostOS_of_split (u : unicode.Tables) (c : buildConfig) (init : List (List Char))
    (last : List Char) (h : splitOnChar '-' c.hostTriple.data = init ++ [last]) :
    c.HostOS u = some (strings.Title u (String.mk last)) := by
  simp only [buildConfig.HostOS, strings.Split]
  exact last_component_title (strings.Title u) _ init last h

theorem TargetOS_of_split (u : unicode.Tables) (c : buildConfig) (init : List (List Char))
    (last : List Char) (h : splitNChar '-' 3 c.targetTriple.data = init ++ [last]) :
    c.TargetOS u = some (strings.Title u (String.mk last)) := by
  have h3 : ¬ ((3 : Int) < 0) := by decide
  simp only [buildConfig.TargetOS, strings.SplitN, h3, if_false]
  exact last_component_title (strings.Title u) _ init last h

/-- C14, as stated, fails: for the triple `x86_64-unknown-linux-gnu` as host and
as target triple, `HostOS` is `Gnu`, the capitalised last component, and
`TargetOS` is `Linux-Gnu`. -/
theorem targetOS_differs_from_hostOS :
    configFourParts.hostTriple = configFourParts.targetTriple ∧
    configFourParts.HostOS unicode.ascii = some "Gnu" ∧
    configFourParts.TargetOS unicode.ascii = some "Linux-Gnu" := by
  decide

/-- C14, amended. `TargetOS` capitalises the last of at most three pieces of the
target triple (`SplitN` with the limit 3). For a triple with at most two `-`
it is `HostOS` of the same triple; for a triple `a-b-r`, where `a` and `b`
hold no `-`, it is the capitalised `r`, whatever `-` there are in `r`. -/
theorem targetOS_three_pieces (u : unicode.Tables) (c d : buildConfig)
    (h : d.hostTriple = c.targetTriple) :
    (c.targetTriple.data.count '-' ≤ 2 → c.TargetOS u = d.HostOS u) ∧
    (∀ a b r : List Char, c.targetTriple.data = a ++ '-' :: (b ++ '-' :: r) →
      '-' ∉ a → '-' ∉ b → c.TargetOS u = some (strings.Title u (String.mk r))) := by
  constructor
  · intro hc
    have hl : (splitOnChar '-' c.targetTriple.data).length ≤ 3 := by
      rw [length_splitOnChar]; omega
    have he := splitNChar_eq_splitOnChar '-' 3 c.targetTriple.data hl
    have hne := splitOnChar_ne_nil '-' c.targetTriple.data
    have hsplit := (List.dropLast_append_getLast hne).symm
    rw [TargetOS_of_split u c _ _ (he.trans hsplit),
      HostOS_of_split u d _ _ (by rw [h]; exact hsplit)]
  · intro a b r ht ha hb
    apply TargetOS_of_split u c [a, b] r
    rw [ht]
    simp [splitNChar, dropWhile_notSep_append, takeWhile_notSep_append, ha, hb]

/-- The target triple `aarch64-fuchsia` of `exampleConfig` has one `-`: its
`TargetOS` is the `HostOS` of a config with that host triple. -/
theorem targetOS_three_pieces_witness :
    exampleConfig.TargetOS unicode.ascii
      = (NewConfig "/src" "/out" "aarch64-fuchsia" "").HostOS unicode.ascii :=
  (targetOS_three_pieces unicode.ascii exampleConfig
    (NewConfig "/src" "/out" "aarch64-fuchsia" "") rfl).1 (by decide)

/-- C15. `HostOS` is the capitalised last component of the host triple split on
`-`: the text after the last `-`, or the whole triple when it holds no `-`. -/
theorem hostOS_last_component (u : unicode.Tables) (c : buildConfig) :
    (∃ (init : List String) (last : String),
      strings.Split c.hostTriple '-' = init ++ [last] ∧
      c.HostOS u = some (strings.Title u last)) ∧
    (∀ a b : List Char, c.hostTriple.data = a ++ '-' :: b → '-' ∉ b →
      c.HostOS u = some (strings.Title u (String.mk b))) ∧
    ('-' ∉ c.hostTriple.data → c.HostOS u = some (strings.Title u c.hostTriple)) := by
  refine ⟨?_, ?_, ?_⟩
  · have hne := splitOnChar_ne_nil '-' c.hostTriple.data
    have hsplit := (List.dropLast_append_getLast hne).symm
    refine ⟨(splitOnChar '-' c.hostTriple.data).dropLast.map String.mk,
      String.mk ((splitOnChar '-' c.hostTriple.data).getLast hne), ?_,
      HostOS_of_split u c _ _ hsplit⟩
    simp only [strings.Split]
    conv_lhs => rw [hsplit]
    simp
  · intro a b ht hb
    apply HostOS_of_split u c (splitOnChar '-' a) b
    rw [ht, splitOnChar_append_sep, splitOnChar_of_not_mem '-' b hb]
  · intro hn
    exact HostOS_of_split u c [] c.hostTriple.data
      (by rw [splitOnChar_of_not_mem '-' _ hn]; rfl)

/-- The host triple `x86_64-linux` of `exampleConfig` gives `Linux`. -/
theorem hostOS_last_component_witness :
    exampleConfig.HostOS unicode.ascii = some "Linux" := by
  rw [(hostOS_last_component unicode.ascii exampleConfig).2.1 "x86_64".data "linux".data
    rfl (by decide)]
  decide

/-- C16. `HostArch` and `TargetArch` always return a value, the first component
of the triple split on `-`: the text before the first `-`, the whole triple
when it holds no `-`, and the empty string when the triple is empty or starts
with `-`. -/
theorem arch_first_component (c : buildConfig) :
    c.HostArch = some (firstComponent c.hostTriple) ∧
    c.TargetArch = some (firstComponent c.targetTriple) ∧
    ∀ t : String,
      ('-' ∉ t.data → firstComponent t = t) ∧
      (t = "" → firstComponent t = "") ∧
      (∀ rest : List Char, t.data = '-' :: rest → firstComponent t = "") ∧
      (∀ a b : List Char, t.data = a ++ '-' :: b → '-' ∉ a →
        firstComponent t = String.mk a) := by
  refine ⟨?_, ?_, ?_⟩
  · obtain ⟨t, ht⟩ := splitOnChar_head '-' c.hostTriple.data
    simp [buildConfig.HostArch, strings.Split, ht, firstComponent]
  · obtain ⟨t, ht⟩ := splitOnChar_head '-' c.targetTriple.data
    simp [buildConfig.TargetArch, strings.Split, ht, firstComponent]
  · intro t
    refine ⟨?_, ?_, ?_, ?_⟩
    · intro hn
      simp only [firstComponent, takeWhile_notSep_self '-' _ hn]
    · intro ht
      subst ht
      rfl
    · intro rest ht
      simp only [firstComponent, ht]
      rw [List.takeWhile_cons_of_neg (by simp [notSep_self])]
    · intro a b ht ha
      simp only [firstComponent, ht, takeWhile_notSep_append '-' a b ha]

/-- The triples of `exampleConfig` give the architectures `x86_64` and
`aarch64`; an empty host triple gives the empty architecture. -/
theorem arch_first_component_witness :
    exampleConfig.HostArch = some "x86_64" ∧
    exampleConfig.TargetArch = some "aarch64" ∧
    (NewConfig "" "" "" "-elf").HostArch = some "" ∧
    (NewConfig "" "" "" "-elf").TargetArch = some "" := by
  have h1 := arch_first_component exampleConfig
  have h2 := arch_first_component (NewConfig "" "" "" "-elf")
  rw [h1.1, h1.2.1, h2.1, h2.2.1]
  decide

/-- The gn module `gnExample` compiles to the one action that writes
`out/build.ninja`. -/
theorem gn_actions_witness :
    (gnExample.GenerateBuildActions exampleCtx).actions.map
        (fun acts => acts.map (fun a => (a.Rule.name, a.Outputs, a.Implicits, a.OrderOnly)))
      = some [("gn", ["out/build.ninja"], ["dep"], [])] := by
  rw [(gn_actions gnExample exampleCtx).1]
  rfl

/-- The install module `installExample` installs `bin/tool` as `dst/tool`. -/
theorem install_actions_witness :
    (installExample.GenerateBuildActions exampleCtx).actions.map
        (fun acts => acts.map (fun a => (a.Rule.name, a.Outputs, a.Inputs, a.OrderOnly)))
      = some [("mkdir", ["dst"], [], []), ("install", ["dst/tool"], ["bin/tool"], ["dst"])] := by
  rw [(install_actions installExample exampleCtx).1]
  rfl

/-! ## Make against Ninja -/

/-- C21. A make module and a ninja module with the same name, dependencies and
property values (Env, build file `F`, Targets, Outputs) each compile to one
action, and the two actions have the same outputs, inputs, implicits (the
dependency targets, then `F`), order-only list and optional flag; the
bindings of the make action, `makeFile` renamed to `ninjaFile` and `makeDir`
to `ninjaDir`, are the bindings of the ninja action, `targets` being bound in
both exactly when Targets is not empty. The make action with the rule
`ninja` and the renamed bindings is the ninja action; the rules differ. -/
theorem make_ninja_same_action (ctx : ModuleContext) (env targets outputs : List String)
    (F tn tn2 : String) (cfg cfg2 : buildConfig) :
    ∃ a b : BuildParams,
      (Make.GenerateBuildActions
          { targetName := tn,
            properties := { Env := env, Makefile := F, Targets := targets, Outputs := outputs },
            config := cfg } ctx).actions = some [a] ∧
      (Ninja.GenerateBuildActions
          { targetName := tn2,
            properties := { Env := env, NinjaFile := F, Targets := targets, Outputs := outputs },
            config := cfg2 } ctx).actions = some [b] ∧
      a.Outputs = b.Outputs ∧
      a.Inputs = b.Inputs ∧
      a.Implicits = getDirectDependencies ctx ++ [F] ∧
      b.Implicits = getDirectDependencies ctx ++ [F] ∧
      a.OrderOnly = b.OrderOnly ∧
      a.Optional = b.Optional ∧
      renameMakeArgs a.Args = b.Args ∧
      (bindsKey a.Args "targets" = true ↔ targets ≠ []) ∧
      (bindsKey b.Args "targets" = true ↔ targets ≠ []) ∧
      a.Rule = _make ∧ b.Rule = ninja ∧ _make ≠ ninja ∧
      { a with Rule := ninja, Args := renameMakeArgs a.Args } = b := by
  refine ⟨_, _, rfl, rfl, ?_⟩
  cases targets with
  | nil =>
    simp [renameMakeArgs, renameMakeKey, bindsKey]
    decide
  | cons t ts =>
    simp [renameMakeArgs, renameMakeKey, bindsKey]
    decide

/-- The modules `makeWithTargets` and `ninjaWithTargets` compile to actions that
differ in the rule and in the names of two bindings. -/
theorem make_ninja_same_action_witness :
    (makeWithTargets.GenerateBuildActions exampleCtx).actions.map
        (fun acts => acts.map
          (fun a => (a.Rule.name, a.Outputs, a.Inputs, a.Implicits, a.OrderOnly, a.Optional)))
      = some [("make", ["bin/tool"], [], ["dep", "third_party/build.mk"], [], true)] ∧
    (ninjaWithTargets.GenerateBuildActions exampleCtx).actions.map
        (fun acts => acts.map
          (fun a => (a.Rule.name, a.Outputs, a.Inputs, a.Implicits, a.OrderOnly, a.Optional)))
      = some [("ninja", ["bin/tool"], [], ["dep", "third_party/build.mk"], [], true)] ∧
    (makeWithTargets.GenerateBuildActions exampleCtx).actions.map
        (fun acts => acts.map (fun a => renameMakeArgs a.Args))
      = (ninjaWithTargets.GenerateBuildActions exampleCtx).actions.map
        (fun acts => acts.map (fun a => a.Args)) := by
  obtain ⟨a, b, ha, hb, -, -, -, -, -, -, hargs, -, -, -, -, -, -⟩ :=
    make_ninja_same_action exampleCtx ["CC=clang"] ["all", "install"] ["bin/tool"]
      "third_party/build.mk" "" "" exampleConfig exampleConfig
  have ha2 : (makeWithTargets.GenerateBuildActions exampleCtx).actions = some [a] := ha
  have hb2 : (ninjaWithTargets.GenerateBuildActions exampleCtx).actions = some [b] := hb
  refine ⟨by rfl, by rfl, ?_⟩
  rw [ha2, hb2]
  simp [hargs]

/-! ## Copy without sources -/

/-- Compiling a copy module returns an action list exactly when the module
lists a source. -/
theorem Copy.actions_isSome_iff (c : Copy) (ctx : ModuleContext) :
    (c.GenerateBuildActions ctx).actions.isSome = true ↔ c.properties.Sources ≠ [] := by
  simp only [Copy.GenerateBuildActions, makeStrings, List.length_replicate]
  cases hs : c.properties.Sources with
  | nil => simp
  | cons x xs =>
    simp only [List.length_cons, ne_eq, reduceCtorEq, not_false_eq_true, iff_true]
    split
    · rfl
    · split
      · rfl
      · rename_i h
        exact absurd (Nat.succ_pos _) h

/-- C22 fails on the code. Compiling the copy module `copyNoSources`, whose
Sources list is empty, ends in the index `destinationFiles[0]` being out of
range: no action list is returned. -/
theorem copy_without_sources_panics :
    copyNoSources.properties.Sources = [] ∧
    (copyNoSources.GenerateBuildActions exampleCtx).actions = none := by
  decide

end Toyen
